import Mathlib

/-!
Verification development for the DDK transaction admission pipeline.

The definitions below are a shallow embedding of
`src/logic/newTransactionPool.ts` (TransactionPool, TransactionQueue),
`src/modules/blocks/verify.js` (verifyId, verifyReward, verifyPayload)
and the `Sequence` helper.

Modelling conventions:
* JS objects keyed by transaction id are association lists in insertion
  order (`Object.values` is the list of values in order).
* The secondary indexes `poolBySender` / `poolByRecipient` are functions
  `String → Option (List Transaction)`; `none` models an absent key
  (`undefined`), so `bucket || []` becomes `(bucket).getD []` and
  accessing `.filter` on an absent bucket is a JS TypeError, modelled by
  `Except`: `Except.error s` carries the state at the moment of the throw.
* The outcome of the asynchronous collaborators (`newApplyUnconfirmed`,
  the two verify phases, `block.getId`, `transaction.getBytes`,
  `blockReward.calcReward`, the SHA-256 digest, `transactionSortFunc`
  and `generateAddressByPublicKey`, whose sources are outside the core
  files) is passed in as a parameter.
* A mutable `trs.status` field is reported as the trace of status
  assignments an operation performs (pairs of transaction id and status),
  since the stored transaction objects are aliased with the argument.
* JS `Array.prototype.sort` with a comparator is stable sorting on
  `cmp a b ≤ 0` (ES2019 guarantees stability; for a consistent comparator
  the stable sorted permutation is unique).  It is embedded as a
  structurally recursive stable insertion sort so that concrete instances
  evaluate inside the kernel.  `Array.prototype.indexOf` is
  `List.indexOf` (first occurrence).
* `TransactionQueue.process` and `TransactionQueue.push` are mutually
  recursive through asynchronous tail calls; they are embedded with an
  explicit fuel argument, fuel exhaustion returning the current state.
-/

/-- Transaction types referenced by the pool (`transactionTypes.js`). -/
inductive TrsType where
  | SEND
  | SIGNATURE
  | VOTE
  | REFERRAL
  | STAKE
  | SENDSTAKE
  deriving DecidableEq, Repr

/-- Lifecycle statuses (`TransactionStatus` in `helpers/types`); the
spelling `UNCOFIRM_APPLIED` is the source's. -/
inductive TrsStatus where
  | CREATED
  | QUEUED
  | QUEUED_AS_CONFLICTED
  | VERIFIED
  | PUT_IN_POOL
  | UNCOFIRM_APPLIED
  | DECLINED
  | CONFIRMED
  deriving DecidableEq, Repr

/-- The immutable content of a transaction.  The mutable `status` field is
not part of the value: status writes are reported separately as a trace. -/
structure Transaction where
  id : String
  type : TrsType
  senderPublicKey : String
  senderId : String
  recipientId : String
  amount : Int
  fee : Int
  timestamp : Int
  deriving DecidableEq, Repr

/-- A JS comparator: negative means the first argument sorts earlier. -/
abbrev Comparator := Transaction → Transaction → Int

/-- Insert `x` after every already-placed element `y` with `le y x`
(keeps insertion order among comparator-equal elements). -/
def insertJs (le : Transaction → Transaction → Bool) (x : Transaction) :
    List Transaction → List Transaction
  | [] => [x]
  | y :: ys => if le y x then y :: insertJs le x ys else x :: y :: ys

/-- JS `Array.prototype.sort cmp` (stable, per ES2019): stable insertion
sort on `cmp a b ≤ 0`, processing the array left to right. -/
def sortJs (cmp : Comparator) (l : List Transaction) : List Transaction :=
  l.foldl (fun acc x => insertJs (fun a b => cmp a b ≤ 0) x acc) []

/-- Trace of `trs.status = …` assignments, in execution order. -/
abbrev StatusTrace := List (String × TrsStatus)

/-! ### Association-list primitives for a JS object keyed by string -/

/-- JS `obj[k]` on an object represented as an insertion-ordered list. -/
def lookupA (m : List (String × Transaction)) (k : String) : Option Transaction :=
  (m.find? (fun p => p.1 = k)).map Prod.snd

/-- JS `delete obj[k]`. -/
def eraseA (m : List (String × Transaction)) (k : String) : List (String × Transaction) :=
  m.filter (fun p => p.1 ≠ k)

/-- JS `obj[k] = v` (replaces in place if present, else appends — JS key
insertion order). -/
def setA (m : List (String × Transaction)) (k : String) (v : Transaction) :
    List (String × Transaction) :=
  if (m.find? (fun p => p.1 = k)).isSome then
    m.map (fun p => if p.1 = k then (k, v) else p)
  else m ++ [(k, v)]

/-- JS `Object.values obj`. -/
def valuesA (m : List (String × Transaction)) : List Transaction :=
  m.map Prod.snd

/-- Functional update of a bucket map. -/
def updF (f : String → Option (List Transaction)) (k : String)
    (v : List Transaction) : String → Option (List Transaction) :=
  fun a => if a = k then some v else f a

/-! ### TransactionPool state and operations -/

/-- State of `TransactionPool`: primary map `pool` (named `byId` in the
spec), the two secondary indexes, and the lock flag. -/
structure PoolState where
  byId : List (String × Transaction)
  bySender : String → Option (List Transaction)
  byRecipient : String → Option (List Transaction)
  locked : Bool

/-- The empty pool. -/
def PoolState.empty : PoolState :=
  { byId := [], bySender := fun _ => none, byRecipient := fun _ => none,
    locked := false }

namespace PoolState

/-- JS `getTransactionsBySenderId` : `this.poolBySender[senderId] || []`. -/
def getTransactionsBySenderId (s : PoolState) (senderId : String) : List Transaction :=
  (s.bySender senderId).getD []

/-- JS `getTransactionsByRecipientId` : `this.poolByRecipient[recipientId] || []`. -/
def getTransactionsByRecipientId (s : PoolState) (recipientId : String) : List Transaction :=
  (s.byRecipient recipientId).getD []

/-- JS `has(trs)` : `Boolean(this.pool[trs.id])`. -/
def has (s : PoolState) (trs : Transaction) : Bool :=
  (lookupA s.byId trs.id).isSome

/-- JS `get(id)` : `this.pool[id]`. -/
def get (s : PoolState) (id : String) : Option Transaction :=
  lookupA s.byId id

/-- JS `getSize()` : `Object.keys(this.pool).length`. -/
def getSize (s : PoolState) : Nat :=
  s.byId.length

/-- JS `isPotentialConflict(trs)`.  `addrOf` is
`generateAddressByPublicKey`, `cmp` is `transactionSortFunc`. -/
def isPotentialConflict (addrOf : String → String) (cmp : Comparator)
    (s : PoolState) (trs : Transaction) : Bool :=
  let senderId := addrOf trs.senderPublicKey
  let recipientTrs := (s.byRecipient senderId).getD []
  let senderTrs := (s.bySender senderId).getD []
  let dependTransactions := recipientTrs ++ senderTrs
  if dependTransactions.length = 0 then
    false
  else if trs.type = TrsType.SIGNATURE then
    true
  else if trs.type = TrsType.VOTE ∧
      (dependTransactions.find? (fun t => t.type = TrsType.VOTE)).isSome then
    true
  else if trs.type = TrsType.REFERRAL ∧
      (dependTransactions.find? (fun t => t.type = TrsType.REFERRAL)).isSome then
    true
  else
    let extended := dependTransactions ++ [trs]
    let sorted := sortJs cmp extended
    sorted.indexOf trs ≠ sorted.length - 1

/-- JS `push(trs, broadcast, force)`.  `applyOk` is the outcome of the
awaited collaborator call `newApplyUnconfirmed(trs)` (`false` = it threw).
Returns the JS return value, the trace of status assignments to `trs`,
and the resulting state.  The `broadcast` bus emission does not affect
pool state and is not modelled. -/
def push (applyOk : Bool) (addrOf : String → String) (cmp : Comparator)
    (trs : Transaction) (_broadcast : Bool) (force : Bool) (s : PoolState) :
    Bool × StatusTrace × PoolState :=
  if s.locked ∧ ¬force then
    (false, [], s)
  else if s.has trs then
    (false, [], s)
  else if isPotentialConflict addrOf cmp s trs then
    (false, [], { s with byId := eraseA s.byId trs.id })
  else
    let s1 : PoolState := { s with byId := setA s.byId trs.id trs }
    let senderBucket := (s1.bySender trs.senderId).getD []
    let s2 : PoolState :=
      { s1 with bySender := updF s1.bySender trs.senderId (senderBucket ++ [trs]) }
    let s3 : PoolState :=
      if trs.type = TrsType.SEND then
        let recipientBucket := (s2.byRecipient trs.recipientId).getD []
        { s2 with byRecipient := updF s2.byRecipient trs.recipientId (recipientBucket ++ [trs]) }
      else s2
    if applyOk then
      (true, [(trs.id, TrsStatus.PUT_IN_POOL), (trs.id, TrsStatus.UNCOFIRM_APPLIED)], s3)
    else
      (false, [(trs.id, TrsStatus.PUT_IN_POOL), (trs.id, TrsStatus.DECLINED)],
        { s3 with byId := eraseA s3.byId trs.id })

/-- JS `remove(trs)`.  The `newUndoUnconfirmed` call is awaited inside a
`try`/`catch` that swallows the error, so its outcome does not affect the
state and is not a parameter.  `this.poolBySender[trs.senderId].filter`
throws a TypeError when the bucket is absent: `Except.error` carries the
state at the throw (`pool[trs.id]` already deleted). -/
def remove (trs : Transaction) (s : PoolState) : Except PoolState (Bool × PoolState) :=
  if (lookupA s.byId trs.id).isNone then
    Except.ok (false, s)
  else
    let sDel : PoolState := { s with byId := eraseA s.byId trs.id }
    match sDel.bySender trs.senderId with
    | none => Except.error sDel
    | some senderBucket =>
      let newSenderBucket := senderBucket.filter (fun t => t.id ≠ trs.id)
      let s1 : PoolState :=
        { sDel with bySender := updF sDel.bySender trs.senderId newSenderBucket }
      let recipientBucket := (s1.byRecipient trs.recipientId).getD []
      let newRecipientBucket := recipientBucket.filter (fun t => t.id ≠ trs.id)
      let s2 : PoolState :=
        { s1 with byRecipient := updF s1.byRecipient trs.recipientId newRecipientBucket }
      Except.ok (true, s2)

/-- JS `pop(trs)` : read `get(trs.id)`, fire `remove(trs)`, return the read
value.  The remove is not awaited; its state effects still happen (on a
throw the partially mutated state is kept). -/
def pop (trs : Transaction) (s : PoolState) : Option Transaction × PoolState :=
  (s.get trs.id,
    match remove trs s with
    | Except.ok (_, s1) => s1
    | Except.error s1 => s1)

/-- JS `await this.remove(trs)` over a list, collecting the transactions for
which `remove` returned `true` (shared by the two bulk purges). -/
def removeEach (l : List Transaction) (s : PoolState) :
    Except PoolState (List Transaction × PoolState) :=
  match l with
  | [] => Except.ok ([], s)
  | trs :: rest =>
    match remove trs s with
    | Except.error s1 => Except.error s1
    | Except.ok (removed, s1) =>
      match removeEach rest s1 with
      | Except.error s2 => Except.error s2
      | Except.ok (acc, s2) =>
        Except.ok ((if removed then trs :: acc else acc), s2)

/-- JS `removeTransactionBySenderId(senderId)` : iterate the current bucket
(the `filter` inside `remove` reassigns a fresh array, so the loop sees a
snapshot) and `remove` each element. -/
def removeTransactionBySenderId (senderId : String) (s : PoolState) :
    Except PoolState (List Transaction × PoolState) :=
  removeEach (s.getTransactionsBySenderId senderId) s

/-- JS `removeTransactionByRecipientId(address)`. -/
def removeTransactionByRecipientId (address : String) (s : PoolState) :
    Except PoolState (List Transaction × PoolState) :=
  removeEach (s.getTransactionsByRecipientId address) s

/-- JS `popSortedUnconfirmedTransactions(limit)` : snapshot
`Object.values(this.pool)`, sort by `transactionSortFunc`, `slice(0,
limit)`, `remove` each, return the slice. -/
def popSortedUnconfirmedTransactions (cmp : Comparator) (limit : Nat)
    (s : PoolState) : Except PoolState (List Transaction × PoolState) :=
  let transactions := (sortJs cmp (valuesA s.byId)).take limit
  match removeEach transactions s with
  | Except.error s1 => Except.error s1
  | Except.ok (_, s1) => Except.ok (transactions, s1)

end PoolState

/-! ### TransactionQueue state and operations -/

/-- One entry of `conflictedQueue`: `{ transaction, expire }`. -/
structure ConflictedEntry where
  transaction : Transaction
  expire : Nat
  deriving DecidableEq, Repr

/-- State of `TransactionQueue`. -/
structure QueueState where
  queue : List Transaction
  conflictedQueue : List ConflictedEntry
  locked : Bool

/-- The empty queue. -/
def QueueState.empty : QueueState :=
  { queue := [], conflictedQueue := [], locked := false }

namespace QueueState

/-- JS `hasInQueue(trs)`. -/
def hasInQueue (qs : QueueState) (trs : Transaction) : Bool :=
  ¬(qs.queue.filter (fun t => t.id = trs.id)).length = 0

/-- JS `hasInConflictedQueue(trs)`. -/
def hasInConflictedQueue (qs : QueueState) (trs : Transaction) : Bool :=
  ¬(qs.conflictedQueue.filter (fun e => e.transaction.id = trs.id)).length = 0

/-- JS `TransactionQueue.has(trs)`. -/
def has (qs : QueueState) (trs : Transaction) : Bool :=
  qs.hasInQueue trs ∨ qs.hasInConflictedQueue trs

/-- JS `pushInConflictedQueue(trs)`: append `{transaction: trs, expire:
Math.floor(Date.now() / 1000) + TRANSACTION_QUEUE_EXPIRE}` and set
`trs.status = QUEUED_AS_CONFLICTED`.  `nowMs` is `Date.now()`, `expireC`
is `constants.TRANSACTION_QUEUE_EXPIRE`. -/
def pushInConflictedQueue (nowMs expireC : Nat) (trs : Transaction)
    (qs : QueueState) : QueueState × StatusTrace :=
  ({ qs with conflictedQueue :=
      qs.conflictedQueue ++ [⟨trs, nowMs / 1000 + expireC⟩] },
    [(trs.id, TrsStatus.QUEUED_AS_CONFLICTED)])

end QueueState

/-- Collaborator outcomes threaded through a `process()` run: the result
of the two-phase `verify` for a transaction (true = both phases passed)
and of `newApplyUnconfirmed` inside `pool.push`. -/
structure ProcessEnv where
  addrOf : String → String
  cmp : Comparator
  verifyOk : Transaction → Bool
  applyOk : Transaction → Bool
  nowMs : Nat
  expireC : Nat

mutual

/-- JS `TransactionQueue.push(trs)`: status QUEUED, append; if the queue was
empty kick `process()`, else re-sort by `transactionSortFunc`. -/
def tqPush (env : ProcessEnv) (fuel : Nat) (trs : Transaction)
    (qs : QueueState) (ps : PoolState) : QueueState × PoolState × StatusTrace :=
  let qs1 : QueueState := { qs with queue := qs.queue ++ [trs] }
  if qs1.queue.length = 1 then
    let (qs2, ps2, tr) := tqProcess env fuel qs1 ps
    (qs2, ps2, (trs.id, TrsStatus.QUEUED) :: tr)
  else
    ({ qs1 with queue := sortJs env.cmp qs1.queue }, ps,
      [(trs.id, TrsStatus.QUEUED)])

/-- JS `TransactionQueue.process()`, with explicit fuel for the recursive
tail calls (fuel exhaustion stops with the current state, standing for an
unfinished asynchronous run). -/
def tqProcess (env : ProcessEnv) (fuel : Nat) (qs : QueueState)
    (ps : PoolState) : QueueState × PoolState × StatusTrace :=
  match fuel with
  | 0 => (qs, ps, [])
  | Nat.succ n =>
    if qs.queue.length = 0 ∨ qs.locked then
      (qs, ps, [])
    else
      match qs.queue with
      | [] => (qs, ps, [])
      | trs :: rest =>
        let qs1 : QueueState := { qs with queue := rest }
        if ps.has trs then
          (qs1, ps, [])
        else if PoolState.isPotentialConflict env.addrOf env.cmp ps trs then
          let (qs2, tr1) := qs1.pushInConflictedQueue env.nowMs env.expireC trs
          let (qs3, ps3, tr2) := tqProcess env n qs2 ps
          (qs3, ps3, tr1 ++ tr2)
        else if ¬env.verifyOk trs then
          let (qs2, ps2, tr) := tqProcess env n qs1 ps
          (qs2, ps2, (trs.id, TrsStatus.DECLINED) :: tr)
        else
          let tr0 : StatusTrace := [(trs.id, TrsStatus.VERIFIED)]
          if ¬qs1.locked then
            let (pushed, trPush, ps1) :=
              PoolState.push (env.applyOk trs) env.addrOf env.cmp trs true false ps
            if pushed then
              let (qs2, ps2, tr) := tqProcess env n qs1 ps1
              (qs2, ps2, tr0 ++ trPush ++ tr)
            else
              let (qs2, ps2, tr1) := tqPush env n trs qs1 ps1
              let (qs3, ps3, tr2) := tqProcess env n qs2 ps2
              (qs3, ps3, tr0 ++ trPush ++ tr1 ++ tr2)
          else
            let (qs2, ps2, tr1) := tqPush env n trs qs1 ps
            let (qs3, ps3, tr2) := tqProcess env n qs2 ps2
            (qs3, ps3, tr0 ++ tr1 ++ tr2)

end

/-! ### Sequence (`helpers/sequence.js`) -/

/-- A small universe of JS values, enough for the dynamic checks in
`Sequence.prototype.add`. -/
inductive JSValue where
  | undef
  | jsNull
  | fn (tag : Nat)
  | arr (tag : Nat)
  | num (n : Int)
  | str (s : String)
  | boolean (b : Bool)
  deriving DecidableEq, Repr

namespace JSValue

/-- JS truthiness. -/
def isTruthy : JSValue → Bool
  | undef => false
  | jsNull => false
  | fn _ => true
  | arr _ => true
  | num n => ¬n = 0
  | str s => ¬s = ""
  | boolean b => b

/-- JS typeof test: is v a function. -/
def isFunction : JSValue → Bool
  | fn _ => true
  | _ => false

/-- JS utility check: util.isArray v. -/
def isArray : JSValue → Bool
  | arr _ => true
  | _ => false

end JSValue

/-- A task object as built by `Sequence.prototype.add`. -/
structure SeqTask where
  worker : JSValue
  done : JSValue
  args : Option JSValue
  deriving DecidableEq, Repr

/-- JS `Sequence.prototype.add(worker, args, done)`. -/
def seqAdd (worker args done : JSValue) (sequence : List SeqTask) : List SeqTask :=
  let (args, done) :=
    if ¬done.isTruthy ∧ args.isTruthy ∧ args.isFunction then
      (JSValue.undef, args)
    else (args, done)
  if worker.isTruthy ∧ worker.isFunction then
    let task : SeqTask :=
      { worker := worker, done := done,
        args := if args.isArray then some args else none }
    sequence ++ [task]
  else
    sequence

/-- JS `Sequence.prototype.count()`. -/
def seqCount (sequence : List SeqTask) : Nat :=
  sequence.length

/-! ### Block verifier (`modules/blocks/verify.js`) -/

/-- The block fields read by `verifyId`, `verifyReward`, `verifyPayload`. -/
structure VBlock where
  id : String
  height : Nat
  reward : Int
  totalAmount : Int
  totalFee : Int
  payloadHash : String
  payloadLength : Nat
  numberOfTransactions : Nat
  transactions : List Transaction
  deriving Repr

/-- JS `result` record threaded through the verification steps. -/
structure VResult where
  verified : Bool
  errors : List String
  deriving DecidableEq, Repr

/-- JS `__private.verifyId`: recompute the id with
`library.logic.block.getId(block)` and assign it to `block.id`; only a
thrown exception is recorded as an error. -/
def verifyId (getId : VBlock → Except String String) (b : VBlock)
    (r : VResult) : VBlock × VResult :=
  match getId b with
  | Except.ok newId => ({ b with id := newId }, r)
  | Except.error e => (b, { r with errors := r.errors ++ [e] })

/-- JS `__private.verifyReward`.  `calcReward` is
`__private.blockReward.calcReward`, `blockRewards` is
`exceptions.blockRewards`. -/
def verifyReward (calcReward : Nat → Int) (blockRewards : List String)
    (b : VBlock) (r : VResult) : VBlock × VResult :=
  let expectedReward := calcReward b.height
  let expectedReward := if b.height > 21000000 then 0 else expectedReward
  let b := if b.height > 21000000 then { b with reward := 0 } else b
  if ¬b.height = 1 ∧ ¬expectedReward = b.reward ∧ ¬blockRewards.contains b.id then
    let rewardStr := toString b.reward
    let expectedStr := toString expectedReward
    (b, { r with errors :=
      r.errors ++ ["Invalid block reward: " ++ rewardStr ++ " expected: " ++ expectedStr] })
  else
    (b, r)

/-- The errors one iteration of the `verifyPayload` loop pushes for
transaction `t`: a `getBytes` throw message (the chunk is then skipped)
followed by the duplicate-id error when `appliedTransactions[t.id]` is
already set. -/
def payloadStepErrs (getBytes : Transaction → Except String (List Nat))
    (applied : List String) (t : Transaction) : List String :=
  (match getBytes t with
   | Except.ok _ => []
   | Except.error e => [e]) ++
    (if applied.contains t.id then
      ["Encountered duplicate transaction: " ++ t.id]
    else [])

/-- The per-transaction loop of `__private.verifyPayload`: accumulates
the list of byte chunks fed to the rolling SHA-256, the totals, the
duplicate-detection map (as the list of ids seen) and the errors, in
source order. -/
def payloadLoop (getBytes : Transaction → Except String (List Nat)) :
    List Transaction → List String → List (List Nat) → Int → Int → List String →
    List (List Nat) × Int × Int × List String
  | [], _, chunks, totalAmount, totalFee, errs =>
    (chunks, totalAmount, totalFee, errs)
  | t :: ts, applied, chunks, totalAmount, totalFee, errs =>
    payloadLoop getBytes ts (applied ++ [t.id])
      (chunks ++ (match getBytes t with
        | Except.ok bs => [bs]
        | Except.error _ => []))
      (totalAmount + t.amount) (totalFee + t.fee)
      (errs ++ payloadStepErrs getBytes applied t)

/-- The error list the `verifyPayload` loop produces on its own. -/
def loopErrs (getBytes : Transaction → Except String (List Nat))
    (applied : List String) : List Transaction → List String
  | [] => []
  | t :: ts =>
    payloadStepErrs getBytes applied t ++ loopErrs getBytes (applied ++ [t.id]) ts

/-- JS `__private.verifyPayload`.  `digestHex` models the rolling SHA-256:
it maps the list of `update` chunks to the final hex digest.  `migrated`
is `constants.MASTER_NODE_MIGRATED_BLOCK`, `maxPayloadLength` and
`maxTxsPerBlock` the corresponding constants. -/
def verifyPayload (getBytes : Transaction → Except String (List Nat))
    (digestHex : List (List Nat) → String)
    (migrated maxPayloadLength maxTxsPerBlock : Nat)
    (b : VBlock) (r : VResult) : VResult :=
  let errs := r.errors
  let errs := if b.payloadLength > maxPayloadLength then
    errs ++ ["Payload length is too long"] else errs
  let errs := if ¬b.transactions.length = b.numberOfTransactions ∧ b.height > migrated then
    errs ++ ["Included transactions do not match block transactions count"] else errs
  let errs := if b.transactions.length > maxTxsPerBlock then
    errs ++ ["Number of transactions exceeds maximum per block"] else errs
  let loopOut := payloadLoop getBytes b.transactions [] [] 0 0 errs
  let chunks := loopOut.1
  let totalAmount := loopOut.2.1
  let totalFee := loopOut.2.2.1
  let errs := loopOut.2.2.2
  let errs := if ¬digestHex chunks = b.payloadHash ∧ b.height > migrated then
    errs ++ ["Invalid payload hash"] else errs
  let errs := if ¬totalAmount = b.totalAmount ∧ b.height > migrated then
    errs ++ ["Invalid total amount"] else errs
  let errs := if ¬totalFee = b.totalFee ∧ b.height > migrated then
    errs ++ ["Invalid total fee"] else errs
  { r with errors := errs }

/-! ### Concrete instances and invariant definitions used by the claims -/

/-- The dependent set of the claim:
`byRecipient[senderId] ++ bySender[senderId]` with `senderId` derived
from `trs.senderPublicKey`. -/
def dependentSet (addrOf : String → String) (s : PoolState) (trs : Transaction) :
    List Transaction :=
  (s.byRecipient (addrOf trs.senderPublicKey)).getD [] ++
    (s.bySender (addrOf trs.senderPublicKey)).getD []

/-- A sample SEND transaction used by concrete instances. -/
def trsC1 : Transaction :=
  { id := "t1", type := TrsType.SEND, senderPublicKey := "pkA",
    senderId := "A", recipientId := "R", amount := 10, fee := 1,
    timestamp := 100 }

/-- A sample SIGNATURE transaction. -/
def trsSig : Transaction :=
  { id := "t1", type := TrsType.SIGNATURE, senderPublicKey := "pkA",
    senderId := "A", recipientId := "R", amount := 0, fee := 0, timestamp := 0 }

/-- A pool already holding `trsSig`. -/
def psC6 : PoolState :=
  { byId := [("t1", trsSig)],
    bySender := fun a => if a = "A" then some [trsSig] else none,
    byRecipient := fun _ => none, locked := false }

/-- A queue about to process `trsSig`. -/
def qsC6 : QueueState := { queue := [trsSig], conflictedQueue := [], locked := false }

/-- Collaborator outcomes for the C6 instances. -/
def envC6 : ProcessEnv :=
  { addrOf := fun _ => "A", cmp := fun _ _ => 0, verifyOk := fun _ => true,
    applyOk := fun _ => true, nowMs := 5000, expireC := 3 }

/-- A sample STAKE transaction stored under sender `"A"`. -/
def trsX : Transaction :=
  { id := "x", type := TrsType.STAKE, senderPublicKey := "pkA",
    senderId := "A", recipientId := "RA", amount := 1, fee := 1, timestamp := 1 }

/-- A transaction object with the same id as `trsX` but sender `"B"`. -/
def trsX' : Transaction :=
  { trsX with senderId := "B", recipientId := "RB" }

/-- A second stored transaction, from sender `"B"`. -/
def trsU : Transaction :=
  { id := "u1", type := TrsType.STAKE, senderPublicKey := "pkB",
    senderId := "B", recipientId := "RB", amount := 1, fee := 1, timestamp := 2 }

/-- A pool holding `trsX` (sender `"A"`) and `trsU` (sender `"B"`). -/
def psC9 : PoolState :=
  { byId := [("x", trsX), ("u1", trsU)],
    bySender := fun a => if a = "A" then some [trsX]
      else if a = "B" then some [trsU] else none,
    byRecipient := fun _ => none, locked := false }

/-- The pool state after `remove(trsX')` on `psC9`. -/
def c9After : PoolState :=
  match PoolState.remove trsX' psC9 with
  | Except.ok (_, s1) => s1
  | Except.error s1 => s1

/-- The value returned by `remove(trsX')` on `psC9`. -/
def c9Ret : Bool :=
  match PoolState.remove trsX' psC9 with
  | Except.ok (b, _) => b
  | Except.error _ => false

/-- A block whose transactions share an id, with a payload-hash and
total-amount mismatch, above the migration height. -/
def blkC8 : VBlock :=
  { id := "b1", height := 11, reward := 0, totalAmount := 3, totalFee := 2,
    payloadHash := "X", payloadLength := 5, numberOfTransactions := 2,
    transactions := [trsC1, { trsC1 with amount := 2 }] }

/-- Representation invariants of the JS objects: keys of the primary map
are the stored transactions' ids and are unique, and every bucket entry
sits under its own `senderId` (resp. `recipientId`) key. -/
def poolWF (s : PoolState) : Prop :=
  (∀ p ∈ s.byId, p.1 = p.2.id) ∧
  (s.byId.map Prod.fst).Nodup ∧
  (∀ a, ∀ t ∈ (s.bySender a).getD [], a = t.senderId) ∧
  (∀ a, ∀ t ∈ (s.byRecipient a).getD [], a = t.recipientId)

/-- The claimed invariant INV-1: a transaction is in `byId` iff it is in
`bySender[t.senderId]`, and it is in `byRecipient[t.recipientId]` iff it
is in `byId` and its type is SEND. -/
def poolInv (s : PoolState) : Prop :=
  ∀ t : Transaction,
    (lookupA s.byId t.id = some t ↔ t ∈ (s.bySender t.senderId).getD []) ∧
    (t ∈ (s.byRecipient t.recipientId).getD [] ↔
      (lookupA s.byId t.id = some t ∧ t.type = TrsType.SEND))

/-- The spec-side state of "calling `remove` on each element in order"
(the value returned by each `remove` is discarded). -/
def removeAllSpec : List Transaction → PoolState → Except PoolState PoolState
  | [], s => Except.ok s
  | t :: ts, s =>
    match PoolState.remove t s with
    | Except.error s1 => Except.error s1
    | Except.ok (_, s1) => removeAllSpec ts s1

/-! ### Helper lemmas on the object primitives -/

theorem lookupA_eraseA_self (m : List (String × Transaction)) (k : String) :
    lookupA (eraseA m k) k = none := by
  simp only [lookupA, eraseA]
  rw [List.find?_eq_none.mpr]
  · rfl
  · intro p hp
    have := (List.mem_filter.mp hp).2
    simpa using this

theorem lookupA_eraseA_ne (m : List (String × Transaction)) (k x : String)
    (h : x ≠ k) : lookupA (eraseA m k) x = lookupA m x := by
  simp only [lookupA, eraseA]
  induction m with
  | nil => rfl
  | cons p t ih =>
    by_cases hp : p.1 = k
    · rw [List.filter_cons_of_neg (by simpa using hp)]
      rw [List.find?_cons_of_neg _ (by simp [hp]; exact Ne.symm h)]
      exact ih
    · rw [List.filter_cons_of_pos (by simpa using hp)]
      by_cases hx : p.1 = x
      · rw [List.find?_cons_of_pos _ (by simpa using hx),
          List.find?_cons_of_pos _ (by simpa using hx)]
      · rw [List.find?_cons_of_neg _ (by simpa using hx),
          List.find?_cons_of_neg _ (by simpa using hx)]
        exact ih

theorem eraseA_of_lookupA_none (m : List (String × Transaction)) (k : String)
    (h : lookupA m k = none) : eraseA m k = m := by
  simp only [lookupA, Option.map_eq_none', List.find?_eq_none] at h
  simp only [eraseA]
  apply List.filter_eq_self.mpr
  intro p hp
  have := h p hp
  simpa using this

theorem setA_of_lookupA_none (m : List (String × Transaction)) (k : String)
    (v : Transaction) (h : lookupA m k = none) : setA m k v = m ++ [(k, v)] := by
  simp only [lookupA, Option.map_eq_none', List.find?_eq_none] at h
  have hns : (m.find? (fun p => decide (p.1 = k))).isSome = false := by
    cases hf : m.find? (fun p => decide (p.1 = k)) with
    | none => rfl
    | some p =>
      have hm := List.mem_of_find?_eq_some hf
      have hk := List.find?_some hf
      simp only [decide_eq_true_eq] at hk
      exact absurd hk (by simpa using h p hm)
  simp [setA, hns]

theorem lookupA_append (m n : List (String × Transaction)) (k : String) :
    lookupA (m ++ n) k = (lookupA m k).or (lookupA n k) := by
  simp only [lookupA, List.find?_append]
  cases List.find? (fun p => decide (p.1 = k)) m <;> rfl

theorem lookupA_singleton_self (k : String) (v : Transaction) :
    lookupA [(k, v)] k = some v := by
  simp [lookupA]

theorem lookupA_singleton_ne (k x : String) (v : Transaction) (h : x ≠ k) :
    lookupA [(k, v)] x = none := by
  simp [lookupA, List.find?, Ne.symm h]

theorem updF_self (f : String → Option (List Transaction)) (k : String)
    (v : List Transaction) : updF f k v k = some v := by
  simp [updF]

theorem updF_ne (f : String → Option (List Transaction)) (k a : String)
    (v : List Transaction) (h : a ≠ k) : updF f k v a = f a := by
  simp [updF, h]

/-! ### Claim theorems -/

/-- C10: `Sequence.add(worker, args, done)` leaves the task sequence
unchanged (`count()` is the same) whenever `worker` is absent or not a
function; called with exactly two arguments (i.e. `done` absent) whose
second is a function, that second argument becomes the `done` callback
and the task is enqueued with no `args`. -/
theorem seq_add_claim (worker args done : JSValue) (sequence : List SeqTask) :
    (worker.isFunction = false →
      seqAdd worker args done sequence = sequence ∧
      seqCount (seqAdd worker args done sequence) = seqCount sequence) ∧
    (worker.isFunction = true → args.isFunction = true → done = JSValue.undef →
      seqAdd worker args done sequence =
        sequence ++ [{ worker := worker, done := args, args := none }]) := by
  constructor
  · intro h
    have : ¬(worker.isTruthy ∧ worker.isFunction) := by
      intro hc
      rw [h] at hc
      exact absurd hc.2 (by simp)
    constructor
    · simp only [seqAdd]
      rw [if_neg this]
    · simp only [seqAdd]
      rw [if_neg this]
  · intro hw ha hd
    subst hd
    have hwt : worker.isTruthy = true := by
      cases worker <;> simp_all [JSValue.isFunction, JSValue.isTruthy]
    have hat : args.isTruthy = true := by
      cases args <;> simp_all [JSValue.isFunction, JSValue.isTruthy]
    cases worker <;> cases args <;>
      simp_all [seqAdd, JSValue.isFunction, JSValue.isTruthy, JSValue.isArray]

/-- C10 witness: a non-function worker leaves the sequence unchanged; a
two-argument call with function second argument enqueues it as `done`
with no args. -/
theorem seq_add_claim_witness :
    seqAdd JSValue.undef (JSValue.fn 1) (JSValue.fn 2) [] = [] ∧
    seqAdd (JSValue.fn 0) (JSValue.fn 1) JSValue.undef [] =
      [{ worker := JSValue.fn 0, done := JSValue.fn 1, args := none }] :=
  ⟨((seq_add_claim JSValue.undef (JSValue.fn 1) (JSValue.fn 2) []).1 (by decide)).1,
    (seq_add_claim (JSValue.fn 0) (JSValue.fn 1) JSValue.undef []).2
      (by decide) (by decide) rfl⟩

/-- C4 counterexample: a block whose declared id `"1"` differs from the
recomputed id `"2"` passes `verifyId` with no error appended — the
declared id is silently overwritten instead of being checked. -/
theorem verifyId_mismatch_not_detected :
    let b : VBlock :=
      { id := "1", height := 5, reward := 0, totalAmount := 0, totalFee := 0,
        payloadHash := "", payloadLength := 0, numberOfTransactions := 0,
        transactions := [] }
    let getId : VBlock → Except String String := fun _ => Except.ok "2"
    let r : VResult := { verified := false, errors := [] }
    (verifyId getId b r).2.errors = [] ∧
      (verifyId getId b r).1.id = "2" ∧ b.id ≠ "2" := by
  refine ⟨rfl, rfl, by decide⟩

/-- C4 (amended): `verifyId` recomputes the id via the block crypto
collaborator and overwrites `block.id` with the result, leaving `result`
untouched; an error is appended only when the `getId` call throws.  A
declared id that mismatches the block's content is never compared, so no
error arises from the mismatch. -/
theorem verifyId_amended (getId : VBlock → Except String String) (b : VBlock)
    (r : VResult) :
    (∀ i, getId b = Except.ok i →
      (verifyId getId b r).1 = { b with id := i } ∧ (verifyId getId b r).2 = r) ∧
    (∀ e, getId b = Except.error e →
      (verifyId getId b r).1 = b ∧
      (verifyId getId b r).2.errors = r.errors ++ [e]) := by
  constructor
  · intro i h
    simp [verifyId, h]
  · intro e h
    simp [verifyId, h]

/-- C4 witness: `verifyId` at a concrete block with a succeeding and a
throwing `getId`. -/
theorem verifyId_amended_witness :
    let b : VBlock :=
      { id := "1", height := 5, reward := 0, totalAmount := 0, totalFee := 0,
        payloadHash := "", payloadLength := 0, numberOfTransactions := 0,
        transactions := [] }
    let r : VResult := { verified := false, errors := [] }
    (verifyId (fun _ => Except.ok "9") b r).1 = { b with id := "9" } ∧
      (verifyId (fun _ => Except.error "boom") b r).2.errors = ["boom"] := by
  intro b r
  refine ⟨((verifyId_amended (fun _ => Except.ok "9") b r).1 "9" rfl).1, ?_⟩
  have := ((verifyId_amended (fun _ => Except.error "boom") b r).2 "boom" rfl).2
  simpa using this

/-- C7: `verifyReward` computes the expected reward with
`blockReward.calcReward(height)`, except that for `height > 21000000` the
expected reward is `0` and `block.reward` is overwritten to `0`; an error
is appended iff `height ≠ 1`, the expected reward differs from the
(possibly coerced) `block.reward`, and `block.id` is not in
`exceptions.blockRewards`. -/
theorem verifyReward_claim (calcReward : Nat → Int) (blockRewards : List String)
    (b : VBlock) (r : VResult) :
    ((verifyReward calcReward blockRewards b r).1.reward =
      (if b.height > 21000000 then 0 else b.reward)) ∧
    ((verifyReward calcReward blockRewards b r).2.errors =
      r.errors ++
        (if ¬b.height = 1 ∧
            ¬(if b.height > 21000000 then 0 else calcReward b.height) =
              (if b.height > 21000000 then (0 : Int) else b.reward) ∧
            ¬blockRewards.contains b.id
         then ["Invalid block reward: " ++
                toString (if b.height > 21000000 then (0 : Int) else b.reward) ++
                " expected: " ++
                toString (if b.height > 21000000 then (0 : Int) else calcReward b.height)]
         else [])) := by
  by_cases hh : b.height > 21000000
  · simp only [verifyReward, if_pos hh]
    constructor
    · split <;> rfl
    · rw [if_neg (by simp)]
      simp
  · simp only [verifyReward, if_neg hh]
    constructor
    · split <;> rfl
    · split <;> simp

theorem eraseA_append (m n : List (String × Transaction)) (k : String) :
    eraseA (m ++ n) k = eraseA m k ++ eraseA n k := by
  simp [eraseA]

/-- C1 counterexample: pushing `trsC1` into the empty pool (so the lock,
duplicate, and conflict checks all pass) with `newApplyUnconfirmed`
throwing returns `false` and deletes the transaction from `byId`, but the
transaction is NOT rolled back out of `bySender[senderId]` nor out of
`byRecipient[recipientId]` — contradicting the claimed full rollback. -/
theorem push_applyFail_leaves_secondary_indexes :
    PoolState.empty.has trsC1 = false ∧
    PoolState.isPotentialConflict (fun _ => "A") (fun _ _ => 0)
      PoolState.empty trsC1 = false ∧
    (PoolState.push false (fun _ => "A") (fun _ _ => 0) trsC1 false false
      PoolState.empty).1 = false ∧
    (PoolState.push false (fun _ => "A") (fun _ _ => 0) trsC1 false false
      PoolState.empty).2.1 =
      [("t1", TrsStatus.PUT_IN_POOL), ("t1", TrsStatus.DECLINED)] ∧
    (PoolState.push false (fun _ => "A") (fun _ _ => 0) trsC1 false false
      PoolState.empty).2.2.byId = [] ∧
    (PoolState.push false (fun _ => "A") (fun _ _ => 0) trsC1 false false
      PoolState.empty).2.2.bySender "A" = some [trsC1] ∧
    (PoolState.push false (fun _ => "A") (fun _ _ => 0) trsC1 false false
      PoolState.empty).2.2.byRecipient "R" = some [trsC1] := by
  refine ⟨rfl, rfl, rfl, rfl, rfl, ?_, ?_⟩ <;> decide

/-- C1 (amended): past the lock, duplicate, and conflict checks, if
`newApplyUnconfirmed(trs)` throws then `push` returns `false`, the last
status assigned to `trs` is DECLINED, and `trs` is deleted from `byId`
(restoring it exactly); but the rollback is incomplete: `trs` remains in
`bySender[trs.senderId]` and, when its type is SEND, in
`byRecipient[trs.recipientId]`. -/
theorem push_applyFail_amended (addrOf : String → String) (cmp : Comparator)
    (trs : Transaction) (broadcast force : Bool) (s : PoolState)
    (hLock : ¬(s.locked = true ∧ ¬force = true)) (hHas : s.has trs = false)
    (hConf : PoolState.isPotentialConflict addrOf cmp s trs = false) :
    (PoolState.push false addrOf cmp trs broadcast force s).1 = false ∧
    (PoolState.push false addrOf cmp trs broadcast force s).2.1 =
      [(trs.id, TrsStatus.PUT_IN_POOL), (trs.id, TrsStatus.DECLINED)] ∧
    (PoolState.push false addrOf cmp trs broadcast force s).2.2.byId = s.byId ∧
    lookupA (PoolState.push false addrOf cmp trs broadcast force s).2.2.byId trs.id = none ∧
    trs ∈ ((PoolState.push false addrOf cmp trs broadcast force s).2.2.bySender
      trs.senderId).getD [] ∧
    (trs.type = TrsType.SEND →
      trs ∈ ((PoolState.push false addrOf cmp trs broadcast force s).2.2.byRecipient
        trs.recipientId).getD []) := by
  have hLook : lookupA s.byId trs.id = none := by
    cases h : lookupA s.byId trs.id with
    | none => rfl
    | some v =>
      exfalso
      simp only [PoolState.has, h, Option.isSome_some] at hHas
      exact absurd hHas (by decide)
  have hSet : setA s.byId trs.id trs = s.byId ++ [(trs.id, trs)] :=
    setA_of_lookupA_none _ _ _ hLook
  have hErase : eraseA (s.byId ++ [(trs.id, trs)]) trs.id = s.byId := by
    rw [eraseA_append, eraseA_of_lookupA_none _ _ hLook]
    simp [eraseA]
  have hP : PoolState.push false addrOf cmp trs broadcast force s =
      (false, [(trs.id, TrsStatus.PUT_IN_POOL), (trs.id, TrsStatus.DECLINED)],
        { byId := eraseA (s.byId ++ [(trs.id, trs)]) trs.id,
          bySender := updF s.bySender trs.senderId
            ((s.bySender trs.senderId).getD [] ++ [trs]),
          byRecipient := if trs.type = TrsType.SEND then
              updF s.byRecipient trs.recipientId
                ((s.byRecipient trs.recipientId).getD [] ++ [trs])
            else s.byRecipient,
          locked := s.locked }) := by
    simp only [PoolState.push]
    rw [if_neg hLock, if_neg (by simp [hHas]), if_neg (by simp [hConf]), hSet]
    by_cases hS : trs.type = TrsType.SEND
    · rw [if_pos hS, if_pos hS]
      rw [if_neg Bool.false_ne_true]
    · rw [if_neg hS, if_neg hS]
      rw [if_neg Bool.false_ne_true]
  rw [hP]
  refine ⟨rfl, rfl, hErase, ?_, ?_, fun hS => ?_⟩
  · show lookupA (eraseA (s.byId ++ [(trs.id, trs)]) trs.id) trs.id = none
    exact lookupA_eraseA_self _ _
  · show trs ∈ (updF s.bySender trs.senderId
      ((s.bySender trs.senderId).getD [] ++ [trs]) trs.senderId).getD []
    rw [updF_self]
    simp
  · show trs ∈ ((if trs.type = TrsType.SEND then
        updF s.byRecipient trs.recipientId
          ((s.byRecipient trs.recipientId).getD [] ++ [trs])
      else s.byRecipient) trs.recipientId).getD []
    rw [if_pos hS, updF_self]
    simp

/-- C1 witness: the amended push-failure behavior at a concrete
transaction and the empty pool. -/
theorem push_applyFail_amended_witness :
    (PoolState.push false (fun _ => "A") (fun _ _ => 0) trsC1 false false
      PoolState.empty).1 = false ∧
    trsC1 ∈ ((PoolState.push false (fun _ => "A") (fun _ _ => 0) trsC1 false false
      PoolState.empty).2.2.bySender trsC1.senderId).getD [] := by
  have h := push_applyFail_amended (fun _ => "A") (fun _ _ => 0) trsC1 false false
    PoolState.empty (by simp [PoolState.empty]) (by decide) (by decide)
  exact ⟨h.1, h.2.2.2.2.1⟩

/-- C3: the rule set of `isPotentialConflict(trs)` over the dependent set
`byRecipient[senderId] ++ bySender[senderId]` (senderId derived from
`trs.senderPublicKey`): empty dependent set gives `false`; otherwise
SIGNATURE gives `true`; otherwise VOTE (resp. REFERRAL) with a dependent
VOTE (resp. REFERRAL) gives `true`; otherwise the result is `true` iff
`trs` (its first occurrence) is not in the last position of the dependent
set extended with `trs` and sorted by `transactionSortFunc`. -/
theorem isPotentialConflict_claim (addrOf : String → String) (cmp : Comparator)
    (s : PoolState) (trs : Transaction) :
    (dependentSet addrOf s trs = [] →
      PoolState.isPotentialConflict addrOf cmp s trs = false) ∧
    (dependentSet addrOf s trs ≠ [] → trs.type = TrsType.SIGNATURE →
      PoolState.isPotentialConflict addrOf cmp s trs = true) ∧
    (dependentSet addrOf s trs ≠ [] → trs.type = TrsType.VOTE →
      (∃ d ∈ dependentSet addrOf s trs, d.type = TrsType.VOTE) →
      PoolState.isPotentialConflict addrOf cmp s trs = true) ∧
    (dependentSet addrOf s trs ≠ [] → trs.type = TrsType.REFERRAL →
      (∃ d ∈ dependentSet addrOf s trs, d.type = TrsType.REFERRAL) →
      PoolState.isPotentialConflict addrOf cmp s trs = true) ∧
    (dependentSet addrOf s trs ≠ [] → ¬trs.type = TrsType.SIGNATURE →
      ¬(trs.type = TrsType.VOTE ∧
        ∃ d ∈ dependentSet addrOf s trs, d.type = TrsType.VOTE) →
      ¬(trs.type = TrsType.REFERRAL ∧
        ∃ d ∈ dependentSet addrOf s trs, d.type = TrsType.REFERRAL) →
      (PoolState.isPotentialConflict addrOf cmp s trs = true ↔
        (sortJs cmp (dependentSet addrOf s trs ++ [trs])).indexOf trs ≠
          (sortJs cmp (dependentSet addrOf s trs ++ [trs])).length - 1)) := by
  have hVoteIff : (((dependentSet addrOf s trs).find?
      (fun t => t.type = TrsType.VOTE)).isSome = true) ↔
      (∃ d ∈ dependentSet addrOf s trs, d.type = TrsType.VOTE) := by
    rw [List.find?_isSome]
    constructor
    · rintro ⟨x, hx, hp⟩
      exact ⟨x, hx, by simpa using hp⟩
    · rintro ⟨x, hx, hp⟩
      exact ⟨x, hx, by simpa using hp⟩
  have hRefIff : (((dependentSet addrOf s trs).find?
      (fun t => t.type = TrsType.REFERRAL)).isSome = true) ↔
      (∃ d ∈ dependentSet addrOf s trs, d.type = TrsType.REFERRAL) := by
    rw [List.find?_isSome]
    constructor
    · rintro ⟨x, hx, hp⟩
      exact ⟨x, hx, by simpa using hp⟩
    · rintro ⟨x, hx, hp⟩
      exact ⟨x, hx, by simpa using hp⟩
  simp only [PoolState.isPotentialConflict, dependentSet] at hVoteIff hRefIff ⊢
  refine ⟨?_, ?_, ?_, ?_, ?_⟩
  · intro h0
    rw [if_pos (by rw [h0]; rfl)]
  · intro h0 h1
    rw [if_neg (fun hl => h0 (List.length_eq_zero.mp hl)), if_pos h1]
  · intro h0 h1 h2
    rw [if_neg (fun hl => h0 (List.length_eq_zero.mp hl)),
      if_neg (by simp [h1]), if_pos ⟨h1, hVoteIff.mpr h2⟩]
  · intro h0 h1 h2
    rw [if_neg (fun hl => h0 (List.length_eq_zero.mp hl)),
      if_neg (by simp [h1]),
      if_neg (by rintro ⟨hv, _⟩; rw [h1] at hv; exact absurd hv (by decide)),
      if_pos ⟨h1, hRefIff.mpr h2⟩]
  · intro h0 h1 h2 h3
    rw [if_neg (fun hl => h0 (List.length_eq_zero.mp hl)), if_neg h1,
      if_neg (fun hc => h2 ⟨hc.1, hVoteIff.mp hc.2⟩),
      if_neg (fun hc => h3 ⟨hc.1, hRefIff.mp hc.2⟩)]
    simp

/-- C3 witness: rule 1 on an empty pool and rule 5 on a one-element
dependent set, for a comparator that orders by timestamp. -/
theorem isPotentialConflict_claim_witness :
    PoolState.isPotentialConflict (fun _ => "A") (fun a b => a.timestamp - b.timestamp)
      PoolState.empty trsC1 = false ∧
    PoolState.isPotentialConflict (fun _ => "A") (fun a b => a.timestamp - b.timestamp)
      { byId := [("t1", trsC1)],
        bySender := fun a => if a = "A" then some [trsC1] else none,
        byRecipient := fun _ => none, locked := false }
      { trsC1 with id := "t2", timestamp := 50 } = true := by
  constructor
  · exact (isPotentialConflict_claim (fun _ => "A")
      (fun a b => a.timestamp - b.timestamp) PoolState.empty trsC1).1 (by decide)
  · have h := (isPotentialConflict_claim (fun _ => "A")
      (fun a b => a.timestamp - b.timestamp)
      { byId := [("t1", trsC1)],
        bySender := fun a => if a = "A" then some [trsC1] else none,
        byRecipient := fun _ => none, locked := false }
      { trsC1 with id := "t2", timestamp := 50 }).2.2.2.2
    exact (h (by decide) (by decide) (by decide) (by decide)).mpr (by decide)

/-- C6 counterexample: for a transaction already in the pool,
`isPotentialConflict` reports a conflict (SIGNATURE with a non-empty
dependent set), yet `process()` returns at the duplicate check and does
NOT route it to `pushInConflictedQueue` — `conflictedQueue` stays empty
and no status is assigned.  So "routes … exactly when isPotentialConflict
reports a conflict" fails without the not-already-in-pool condition. -/
theorem process_duplicate_not_routed :
    PoolState.isPotentialConflict envC6.addrOf envC6.cmp psC6 trsSig = true ∧
    psC6.has trsSig = true ∧
    (tqProcess envC6 1 qsC6 psC6).1.conflictedQueue = [] ∧
    (tqProcess envC6 1 qsC6 psC6).2.2 = [] := by
  refine ⟨by decide, by decide, ?_, ?_⟩ <;>
    simp [tqProcess, envC6, qsC6, psC6, trsSig, PoolState.has, lookupA]

/-- C6 (amended): `pushInConflictedQueue(trs)` appends an entry whose
transaction is `trs` and whose expire is the current unix time in seconds
(`Math.floor(Date.now()/1000)`) plus `TRANSACTION_QUEUE_EXPIRE`, leaving
the main queue alone and setting `trs.status = QUEUED_AS_CONFLICTED`;
and one `process()` step routes the popped transaction to
`pushInConflictedQueue` exactly when it is NOT already in the pool and
`isPotentialConflict` reports a conflict. -/
theorem pushInConflictedQueue_claim :
    (∀ (nowMs expireC : Nat) (trs : Transaction) (qs : QueueState),
      (qs.pushInConflictedQueue nowMs expireC trs).1.conflictedQueue =
        qs.conflictedQueue ++ [⟨trs, nowMs / 1000 + expireC⟩] ∧
      (qs.pushInConflictedQueue nowMs expireC trs).1.queue = qs.queue ∧
      (qs.pushInConflictedQueue nowMs expireC trs).2 =
        [(trs.id, TrsStatus.QUEUED_AS_CONFLICTED)]) ∧
    (∀ (env : ProcessEnv) (trs : Transaction) (qs : QueueState) (ps : PoolState),
      qs.queue = [trs] → qs.locked = false →
      (((tqProcess env 1 qs ps).1.conflictedQueue =
          qs.conflictedQueue ++ [⟨trs, env.nowMs / 1000 + env.expireC⟩] ∧
        (tqProcess env 1 qs ps).2.2 =
          [(trs.id, TrsStatus.QUEUED_AS_CONFLICTED)]) ↔
        (ps.has trs = false ∧
          PoolState.isPotentialConflict env.addrOf env.cmp ps trs = true))) := by
  have hne : ∀ (l : List ConflictedEntry) (e : ConflictedEntry), ¬l = l ++ [e] := by
    intro l e h
    have := congrArg List.length h
    simp at this
  constructor
  · intro nowMs expireC trs qs
    exact ⟨rfl, rfl, rfl⟩
  · intro env trs qs ps hq hl
    have hcond : ¬(([trs] : List Transaction).length = 0 ∨ qs.locked = true) := by
      simp [hl]
    cases hHas : ps.has trs with
    | true =>
      have hstep : tqProcess env 1 qs ps = ({ qs with queue := [] }, ps, []) := by
        rw [tqProcess, hq, if_neg hcond]
        simp [hHas]
      rw [hstep]
      constructor
      · rintro ⟨hc, -⟩
        exact absurd hc (hne _ _)
      · rintro ⟨hf, -⟩
        exact absurd hf (by decide)
    | false =>
      cases hConf : PoolState.isPotentialConflict env.addrOf env.cmp ps trs with
      | true =>
        have hstep : tqProcess env 1 qs ps =
            ({ queue := [], conflictedQueue := qs.conflictedQueue ++
                [⟨trs, env.nowMs / 1000 + env.expireC⟩], locked := qs.locked },
              ps, [(trs.id, TrsStatus.QUEUED_AS_CONFLICTED)]) := by
          rw [tqProcess, hq, if_neg hcond]
          simp [hHas, hConf, QueueState.pushInConflictedQueue, tqProcess]
        rw [hstep]
        exact ⟨fun _ => ⟨rfl, rfl⟩, fun _ => ⟨rfl, rfl⟩⟩
      | false =>
        have hstep : (tqProcess env 1 qs ps).1.conflictedQueue = qs.conflictedQueue := by
          rw [tqProcess, hq, if_neg hcond]
          cases hVer : env.verifyOk trs with
          | false => simp [hHas, hConf, hVer, tqProcess]
          | true =>
            rcases hp : PoolState.push (env.applyOk trs) env.addrOf env.cmp trs true false ps
              with ⟨pushed, trPush, ps1⟩
            cases pushed with
            | true => simp [hHas, hConf, hVer, hl, hp, tqProcess]
            | false => simp [hHas, hConf, hVer, hl, hp, tqProcess, tqPush]
        constructor
        · rintro ⟨hc, -⟩
          rw [hstep] at hc
          exact absurd hc (hne _ _)
        · rintro ⟨-, hf⟩
          exact absurd hf (by decide)

/-- C6 witness: a conflicting non-duplicate transaction is routed into
`conflictedQueue` with `expire = 5000 ms / 1000 + 3 = 8`. -/
theorem pushInConflictedQueue_claim_witness :
    (tqProcess envC6 1
      { queue := [trsSig], conflictedQueue := [], locked := false }
      { byId := [], bySender := fun a => if a = "A" then some [trsC1] else none,
        byRecipient := fun _ => none, locked := false }).1.conflictedQueue =
      [⟨trsSig, 8⟩] := by
  have h := (pushInConflictedQueue_claim.2 envC6 trsSig
    { queue := [trsSig], conflictedQueue := [], locked := false }
    { byId := [], bySender := fun a => if a = "A" then some [trsC1] else none,
      byRecipient := fun _ => none, locked := false } rfl rfl).mpr
    ⟨by decide, by decide⟩
  simpa [envC6] using h.1

/-- C9 counterexample: `remove(t')` with `t'.id = t.id` but
`t'.senderId ≠ t.senderId` returns `true` and deletes the id from `byId`,
yet the stored transaction `t` remains in `bySender[t.senderId]` — the
buckets are filtered under the argument's keys, so the claimed removal
from `bySender` fails. -/
theorem remove_wrong_bucket_counterexample :
    trsX.id = trsX'.id ∧
    ¬trsX.senderId = trsX'.senderId ∧
    c9Ret = true ∧
    lookupA c9After.byId trsX.id = none ∧
    trsX ∈ (c9After.bySender trsX.senderId).getD [] := by
  decide

/-- C9 (amended): `has` and `TransactionQueue.has` are decided by the id
field alone, and `get(id)` returns the stored object; `remove(t')`
(when the id is present and `bySender[t'.senderId]` exists) returns
`true`, deletes the id from `byId`, and filters the buckets keyed by the
ARGUMENT's `senderId`/`recipientId` — so the stored transaction is
removed from `bySender`/`byRecipient` only when those keys agree with
the stored one's. -/
theorem pool_membership_by_id_amended :
    (∀ (s : PoolState) (t t' : Transaction), t.id = t'.id →
      s.has t = s.has t') ∧
    (∀ (s : PoolState) (t : Transaction) (u : Transaction),
      lookupA s.byId t.id = some u → s.get t.id = some u ∧ s.has t = true) ∧
    (∀ (s : PoolState) (t' : Transaction) (bucket : List Transaction),
      (lookupA s.byId t'.id).isSome = true →
      s.bySender t'.senderId = some bucket →
      PoolState.remove t' s = Except.ok (true,
        { byId := eraseA s.byId t'.id,
          bySender := updF s.bySender t'.senderId
            (bucket.filter (fun t => t.id ≠ t'.id)),
          byRecipient := updF s.byRecipient t'.recipientId
            (((s.byRecipient t'.recipientId).getD []).filter
              (fun t => t.id ≠ t'.id)),
          locked := s.locked })) ∧
    (∀ (qs : QueueState) (t : Transaction),
      QueueState.has qs t = true ↔
        ((∃ u ∈ qs.queue, u.id = t.id) ∨
          (∃ e ∈ qs.conflictedQueue, e.transaction.id = t.id))) := by
  refine ⟨?_, ?_, ?_, ?_⟩
  · intro s t t' hid
    simp [PoolState.has, hid]
  · intro s t u hu
    exact ⟨hu, by simp [PoolState.has, hu]⟩
  · intro s t' bucket h1 h2
    have hnn : (lookupA s.byId t'.id).isNone = false := by
      cases h : lookupA s.byId t'.id with
      | none => rw [h] at h1; exact absurd h1 (by decide)
      | some v => rfl
    rw [PoolState.remove, if_neg (by simp [hnn])]
    simp only [h2]
  · intro qs t
    constructor
    · intro h
      simp only [QueueState.has, QueueState.hasInQueue, QueueState.hasInConflictedQueue,
        decide_eq_true_eq] at h
      rcases h with h | h
      · left
        have hne' : qs.queue.filter (fun x => x.id = t.id) ≠ [] :=
          fun hnil => h (by rw [hnil]; rfl)
        rcases List.exists_mem_of_ne_nil _ hne' with ⟨u, hu⟩
        have := List.mem_filter.mp hu
        exact ⟨u, this.1, by simpa using this.2⟩
      · right
        have hne' : qs.conflictedQueue.filter (fun x => x.transaction.id = t.id) ≠ [] :=
          fun hnil => h (by rw [hnil]; rfl)
        rcases List.exists_mem_of_ne_nil _ hne' with ⟨e, he⟩
        have := List.mem_filter.mp he
        exact ⟨e, this.1, by simpa using this.2⟩
    · intro h
      simp only [QueueState.has, QueueState.hasInQueue, QueueState.hasInConflictedQueue,
        decide_eq_true_eq]
      rcases h with ⟨u, hu, hid⟩ | ⟨e, he, hid⟩
      · left
        intro hlen
        have : u ∈ qs.queue.filter (fun x => x.id = t.id) :=
          List.mem_filter.mpr ⟨hu, by simpa using hid⟩
        rw [List.length_eq_zero.mp hlen] at this
        exact absurd this (List.not_mem_nil u)
      · right
        intro hlen
        have : e ∈ qs.conflictedQueue.filter (fun x => x.transaction.id = t.id) :=
          List.mem_filter.mpr ⟨he, by simpa using hid⟩
        rw [List.length_eq_zero.mp hlen] at this
        exact absurd this (List.not_mem_nil e)

/-- C9 witness: the id-based `has` agreement and a successful `remove`
at concrete inputs. -/
theorem pool_membership_by_id_witness :
    psC9.has trsX = psC9.has trsX' ∧
    (PoolState.remove trsU psC9).isOk = true := by
  refine ⟨pool_membership_by_id_amended.1 psC9 trsX trsX' rfl, ?_⟩
  rw [pool_membership_by_id_amended.2.2.1 psC9 trsU [trsU] (by decide) (by decide)]
  rfl

/-! ### Lemmas on the `verifyPayload` loop -/

theorem append_ite_err (c : Prop) [Decidable c] (e : List String) (s : String) :
    (if c then e ++ [s] else e) = e ++ (if c then [s] else []) := by
  split <;> simp

theorem payloadLoop_errs_append (g : Transaction → Except String (List Nat)) :
    ∀ (ts : List Transaction) (ap : List String) (ch : List (List Nat))
      (m f : Int) (e : List String),
    (payloadLoop g ts ap ch m f e).2.2.2 =
      e ++ (payloadLoop g ts ap ch m f []).2.2.2 := by
  intro ts
  induction ts with
  | nil => intro ap ch m f e; simp [payloadLoop]
  | cons t ts ih =>
    intro ap ch m f e
    simp only [payloadLoop]
    rw [ih _ _ _ _ (e ++ payloadStepErrs g ap t),
      ih _ _ _ _ ([] ++ payloadStepErrs g ap t)]
    simp [List.append_assoc]

theorem payloadLoop_errs_eq (g : Transaction → Except String (List Nat)) :
    ∀ (ts : List Transaction) (ap : List String) (ch : List (List Nat))
      (m f : Int) (e : List String),
    (payloadLoop g ts ap ch m f e).2.2.2 = e ++ loopErrs g ap ts := by
  intro ts
  induction ts with
  | nil => intro ap ch m f e; simp [payloadLoop, loopErrs]
  | cons t ts ih =>
    intro ap ch m f e
    simp only [payloadLoop, loopErrs]
    rw [ih]
    simp [List.append_assoc]

theorem payloadLoop_chunks (g : Transaction → Except String (List Nat)) :
    ∀ (ts : List Transaction) (ap : List String) (ch : List (List Nat))
      (m f : Int) (e : List String),
    (payloadLoop g ts ap ch m f e).1 =
      ch ++ ts.flatMap (fun t => match g t with
        | Except.ok bs => [bs]
        | Except.error _ => []) := by
  intro ts
  induction ts with
  | nil => intro ap ch m f e; simp [payloadLoop]
  | cons t ts ih =>
    intro ap ch m f e
    simp only [payloadLoop]
    rw [ih]
    simp [List.append_assoc]

theorem payloadLoop_amount (g : Transaction → Except String (List Nat)) :
    ∀ (ts : List Transaction) (ap : List String) (ch : List (List Nat))
      (m f : Int) (e : List String),
    (payloadLoop g ts ap ch m f e).2.1 = m + (ts.map (fun t => t.amount)).sum := by
  intro ts
  induction ts with
  | nil => intro ap ch m f e; simp [payloadLoop]
  | cons t ts ih =>
    intro ap ch m f e
    simp only [payloadLoop]
    rw [ih]
    simp [List.sum_cons]
    ring

theorem payloadLoop_fee (g : Transaction → Except String (List Nat)) :
    ∀ (ts : List Transaction) (ap : List String) (ch : List (List Nat))
      (m f : Int) (e : List String),
    (payloadLoop g ts ap ch m f e).2.2.1 = f + (ts.map (fun t => t.fee)).sum := by
  intro ts
  induction ts with
  | nil => intro ap ch m f e; simp [payloadLoop]
  | cons t ts ih =>
    intro ap ch m f e
    simp only [payloadLoop]
    rw [ih]
    simp [List.sum_cons]
    ring

theorem loopErrs_nil_iff (g : Transaction → Except String (List Nat)) :
    ∀ (ts : List Transaction) (ap : List String),
    (∀ t ∈ ts, (g t).isOk = true) →
    (loopErrs g ap ts = [] ↔
      ((∀ t ∈ ts, ¬t.id ∈ ap) ∧ (ts.map (fun t => t.id)).Nodup)) := by
  intro ts
  induction ts with
  | nil => intro ap _; simp [loopErrs]
  | cons t ts ih =>
    intro ap hb
    have hok := hb t (List.mem_cons_self t ts)
    have hbt : ∀ u ∈ ts, (g u).isOk = true :=
      fun u hu => hb u (List.mem_cons_of_mem t hu)
    cases hg : g t with
    | error e => rw [hg] at hok; exact absurd hok (by simp [Except.isOk, Except.toBool])
    | ok bs =>
      simp only [loopErrs, payloadStepErrs, hg]
      cases hdup : ap.contains t.id with
      | true =>
        have hmem : t.id ∈ ap := List.mem_of_elem_eq_true hdup
        simp only [if_pos rfl]
        constructor
        · intro hc
          exact absurd hc (by simp)
        · rintro ⟨hall, -⟩
          exact absurd hmem (hall t (List.mem_cons_self t ts))
      | false =>
        have hnmem : ¬t.id ∈ ap := by
          intro hc
          have : ap.contains t.id = true := List.elem_eq_true_of_mem hc
          rw [hdup] at this
          exact absurd this (by decide)
        rw [if_neg (by simp [hdup])]
        simp only [List.nil_append]
        rw [ih (ap ++ [t.id]) hbt]
        simp only [List.map_cons, List.nodup_cons, List.mem_cons, List.mem_append,
          List.mem_singleton, List.mem_map, forall_eq_or_imp, List.mem_nil_iff,
          or_false]
        constructor
        · rintro ⟨hall, hnd⟩
          refine ⟨⟨hnmem, fun u hu => (not_or.mp (hall u hu)).1⟩,
            ⟨fun hc => ?_, hnd⟩⟩
          rcases hc with ⟨u, hu, hid⟩
          exact (not_or.mp (hall u hu)).2 hid
        · rintro ⟨⟨-, hall⟩, ⟨hnm, hnd⟩⟩
          refine ⟨fun u hu => not_or.mpr ⟨hall u hu, fun hc => hnm ⟨u, hu, hc⟩⟩, hnd⟩

theorem loopErrs_mem_shape (g : Transaction → Except String (List Nat)) :
    ∀ (ts : List Transaction) (ap : List String),
    (∀ t ∈ ts, (g t).isOk = true) →
    ∀ e ∈ loopErrs g ap ts, ∃ i, e = "Encountered duplicate transaction: " ++ i := by
  intro ts
  induction ts with
  | nil => intro ap _ e he; exact absurd he (List.not_mem_nil e)
  | cons t ts ih =>
    intro ap hb e he
    have hok := hb t (List.mem_cons_self t ts)
    have hbt : ∀ u ∈ ts, (g u).isOk = true :=
      fun u hu => hb u (List.mem_cons_of_mem t hu)
    cases hg : g t with
    | error e2 => rw [hg] at hok; exact absurd hok (by simp [Except.isOk, Except.toBool])
    | ok bs =>
      simp only [loopErrs, payloadStepErrs, hg, List.nil_append] at he
      rcases List.mem_append.mp he with h | h
      · rcases (by split at h <;> simp_all : e = "Encountered duplicate transaction: " ++ t.id)
          with rfl
        exact ⟨t.id, rfl⟩
      · exact ih (ap ++ [t.id]) hbt e h

/-- C8: `verifyPayload` appends the payload-hash, total-amount,
total-fee and transaction-count mismatch errors exactly under their
mismatch condition AND `height > MASTER_NODE_MIGRATED_BLOCK` (so at
heights ≤ the migration block those mismatches produce no error), while
the duplicate-transaction errors (`loopErrs`) are produced at every
height, and (when `getBytes` never throws) they are produced iff the
transaction ids are not pairwise distinct. -/
theorem verifyPayload_claim (g : Transaction → Except String (List Nat))
    (digestHex : List (List Nat) → String)
    (migrated maxPayloadLength maxTxsPerBlock : Nat)
    (b : VBlock) (r : VResult)
    (hb : ∀ t ∈ b.transactions, (g t).isOk = true) :
    (verifyPayload g digestHex migrated maxPayloadLength maxTxsPerBlock b r).errors =
      r.errors
      ++ (if b.payloadLength > maxPayloadLength then
          ["Payload length is too long"] else [])
      ++ (if ¬b.transactions.length = b.numberOfTransactions ∧ b.height > migrated then
          ["Included transactions do not match block transactions count"] else [])
      ++ (if b.transactions.length > maxTxsPerBlock then
          ["Number of transactions exceeds maximum per block"] else [])
      ++ loopErrs g [] b.transactions
      ++ (if ¬digestHex (b.transactions.flatMap (fun t => match g t with
            | Except.ok bs => [bs]
            | Except.error _ => [])) = b.payloadHash ∧ b.height > migrated then
          ["Invalid payload hash"] else [])
      ++ (if ¬(b.transactions.map (fun t => t.amount)).sum = b.totalAmount ∧
            b.height > migrated then
          ["Invalid total amount"] else [])
      ++ (if ¬(b.transactions.map (fun t => t.fee)).sum = b.totalFee ∧
            b.height > migrated then
          ["Invalid total fee"] else []) ∧
    (loopErrs g [] b.transactions = [] ↔
      (b.transactions.map (fun t => t.id)).Nodup) ∧
    (∀ e ∈ loopErrs g [] b.transactions,
      ∃ i, e = "Encountered duplicate transaction: " ++ i) := by
  refine ⟨?_, ?_, ?_⟩
  · simp only [verifyPayload]
    rw [payloadLoop_errs_eq, payloadLoop_chunks, payloadLoop_amount, payloadLoop_fee]
    simp only [append_ite_err]
    simp [List.append_assoc]
  · rw [loopErrs_nil_iff g b.transactions [] hb]
    simp
  · exact loopErrs_mem_shape g b.transactions [] hb

/-- C8 witness: the duplicate-id error fires together with the hash and
amount mismatches above the migration height. -/
theorem verifyPayload_claim_witness :
    (verifyPayload (fun _ => Except.ok [1]) (fun _ => "H") 10 100 25 blkC8
      { verified := false, errors := [] }).errors =
      ["Encountered duplicate transaction: t1", "Invalid payload hash",
        "Invalid total amount"] := by
  have h := verifyPayload_claim (fun _ => Except.ok [1]) (fun _ => "H") 10 100 25
    blkC8 { verified := false, errors := [] } (by decide)
  rw [h.1]
  decide

/-! ### Pool well-formedness and the claimed invariant -/

theorem lookupA_none_iff (m : List (String × Transaction)) (k : String) :
    lookupA m k = none ↔ ∀ p ∈ m, ¬p.1 = k := by
  simp [lookupA, Option.map_eq_none', List.find?_eq_none]

theorem lookupA_of_mem_values (m : List (String × Transaction))
    (h1 : ∀ p ∈ m, p.1 = p.2.id) (h2 : (m.map Prod.fst).Nodup)
    (t : Transaction) (ht : t ∈ valuesA m) : lookupA m t.id = some t := by
  induction m with
  | nil => exact absurd ht (List.not_mem_nil t)
  | cons p m ih =>
    have h1' : ∀ q ∈ m, q.1 = q.2.id := fun q hq => h1 q (List.mem_cons_of_mem p hq)
    have h2' : (m.map Prod.fst).Nodup := (List.nodup_cons.mp h2).2
    have hvc : valuesA (p :: m) = p.2 :: valuesA m := rfl
    rw [hvc] at ht
    rcases List.mem_cons.mp ht with h | h
    · have hk : p.1 = t.id := by
        rw [h1 p (List.mem_cons_self p m), ← h]
      simp only [lookupA]
      rw [List.find?_cons_of_pos _ (by simpa using hk)]
      simp [← h]
    · have hl := ih h1' h2' h
      have hkm : t.id ∈ m.map Prod.fst := by
        rcases (by simpa [lookupA] using hl :
          ∃ q, List.find? (fun q => decide (q.1 = t.id)) m = some q ∧ q.2 = t) with ⟨q, hq, -⟩
        have hqm := List.mem_of_find?_eq_some hq
        have hqk := List.find?_some hq
        simp only [decide_eq_true_eq] at hqk
        rw [← hqk]
        exact List.mem_map_of_mem Prod.fst hqm
      have hne : ¬p.1 = t.id := by
        intro hc
        exact (List.nodup_cons.mp h2).1 (by rw [hc]; exact hkm)
      simp only [lookupA] at hl ⊢
      rw [List.find?_cons_of_neg _ (by simpa using hne)]
      exact hl

theorem keys_eraseA_nodup (m : List (String × Transaction)) (k : String)
    (h : (m.map Prod.fst).Nodup) : ((eraseA m k).map Prod.fst).Nodup :=
  List.Nodup.sublist (List.Sublist.map Prod.fst (List.filter_sublist m)) h

theorem insertJs_mem (le : Transaction → Transaction → Bool) (x a : Transaction) :
    ∀ (l : List Transaction), a ∈ insertJs le x l ↔ a = x ∨ a ∈ l := by
  intro l
  induction l with
  | nil => simp [insertJs]
  | cons y ys ih =>
    simp only [insertJs]
    split
    · simp only [List.mem_cons, ih]
      tauto
    · simp only [List.mem_cons]

theorem sortJs_mem (cmp : Comparator) (a : Transaction) :
    ∀ (l : List Transaction), a ∈ sortJs cmp l ↔ a ∈ l := by
  have key : ∀ (l acc : List Transaction),
      a ∈ l.foldl (fun acc x => insertJs (fun u v => cmp u v ≤ 0) x acc) acc ↔
        a ∈ acc ∨ a ∈ l := by
    intro l
    induction l with
    | nil => intro acc; simp
    | cons x xs ih =>
      intro acc
      rw [List.foldl_cons, ih, insertJs_mem]
      simp only [List.mem_cons]
      tauto
  intro l
  rw [sortJs, key]
  simp

theorem lookupA_pushed (m : List (String × Transaction)) (k : String)
    (v : Transaction) (x : String) (hLook : lookupA m k = none) :
    lookupA (m ++ [(k, v)]) x = if x = k then some v else lookupA m x := by
  rw [lookupA_append]
  by_cases hx : x = k
  · subst hx
    rw [hLook, lookupA_singleton_self]
    simp
  · rw [lookupA_singleton_ne _ _ _ hx, if_neg hx]
    cases lookupA m x <;> rfl

theorem lookupA_erased (m : List (String × Transaction)) (k x : String) :
    lookupA (eraseA m k) x = if x = k then none else lookupA m x := by
  by_cases hx : x = k
  · subst hx
    rw [lookupA_eraseA_self, if_pos rfl]
  · rw [lookupA_eraseA_ne _ _ _ hx, if_neg hx]

theorem push_ok_preserves (addrOf : String → String) (cmp : Comparator)
    (trs : Transaction) (broadcast force : Bool) (s : PoolState)
    (hwf : poolWF s) (hinv : poolInv s) :
    poolWF (PoolState.push true addrOf cmp trs broadcast force s).2.2 ∧
    poolInv (PoolState.push true addrOf cmp trs broadcast force s).2.2 := by
  obtain ⟨w1, w2, w3, w4⟩ := hwf
  by_cases hLock : s.locked = true ∧ ¬force = true
  · rw [PoolState.push, if_pos hLock]
    exact ⟨⟨w1, w2, w3, w4⟩, hinv⟩
  by_cases hHas : s.has trs = true
  · rw [PoolState.push, if_neg hLock, if_pos hHas]
    exact ⟨⟨w1, w2, w3, w4⟩, hinv⟩
  have hHasF : s.has trs = false := by
    cases h : s.has trs with
    | true => exact absurd h hHas
    | false => rfl
  have hLook : lookupA s.byId trs.id = none := by
    cases h : lookupA s.byId trs.id with
    | none => rfl
    | some v =>
      exfalso
      simp only [PoolState.has, h, Option.isSome_some] at hHasF
      exact absurd hHasF (by decide)
  by_cases hConf : PoolState.isPotentialConflict addrOf cmp s trs = true
  · rw [PoolState.push, if_neg hLock, if_neg (by simp [hHasF]), if_pos hConf,
      eraseA_of_lookupA_none _ _ hLook]
    exact ⟨⟨w1, w2, w3, w4⟩, hinv⟩
  have hSet : setA s.byId trs.id trs = s.byId ++ [(trs.id, trs)] :=
    setA_of_lookupA_none _ _ _ hLook
  have hP : PoolState.push true addrOf cmp trs broadcast force s =
      (true, [(trs.id, TrsStatus.PUT_IN_POOL), (trs.id, TrsStatus.UNCOFIRM_APPLIED)],
        { byId := s.byId ++ [(trs.id, trs)],
          bySender := updF s.bySender trs.senderId
            ((s.bySender trs.senderId).getD [] ++ [trs]),
          byRecipient := if trs.type = TrsType.SEND then
              updF s.byRecipient trs.recipientId
                ((s.byRecipient trs.recipientId).getD [] ++ [trs])
            else s.byRecipient,
          locked := s.locked }) := by
    rw [PoolState.push, if_neg hLock, if_neg (by simp [hHasF]), if_neg hConf, hSet]
    by_cases hS : trs.type = TrsType.SEND <;> simp [hS]
  rw [hP]
  have hknotin : ¬trs.id ∈ s.byId.map Prod.fst := by
    intro hc
    rcases List.mem_map.mp hc with ⟨p, hp, hpk⟩
    exact ((lookupA_none_iff _ _).mp hLook p hp) hpk
  constructor
  · refine ⟨?_, ?_, ?_, ?_⟩
    · show ∀ p ∈ s.byId ++ [(trs.id, trs)], p.1 = p.2.id
      intro p hp
      rcases List.mem_append.mp hp with h | h
      · exact w1 p h
      · rcases List.mem_singleton.mp h with rfl
        rfl
    · show ((s.byId ++ [(trs.id, trs)]).map Prod.fst).Nodup
      rw [List.map_append]
      refine List.nodup_append.mpr ⟨w2, List.nodup_singleton _, ?_⟩
      intro x hx hx2
      have hxe : x = trs.id := by simpa using hx2
      rw [hxe] at hx
      exact hknotin hx
    · show ∀ a, ∀ t ∈ ((updF s.bySender trs.senderId
        ((s.bySender trs.senderId).getD [] ++ [trs])) a).getD [], a = t.senderId
      intro a t ht
      by_cases ha : a = trs.senderId
      · subst ha
        rw [updF_self] at ht
        rcases (by simpa using ht :
          t ∈ (s.bySender trs.senderId).getD [] ∨ t = trs) with h | h
        · exact w3 _ t h
        · rw [h]
      · rw [updF_ne _ _ _ _ ha] at ht
        exact w3 a t ht
    · show ∀ a, ∀ t ∈ ((if trs.type = TrsType.SEND then
          updF s.byRecipient trs.recipientId
            ((s.byRecipient trs.recipientId).getD [] ++ [trs])
        else s.byRecipient) a).getD [], a = t.recipientId
      intro a t ht
      by_cases hS : trs.type = TrsType.SEND
      · rw [if_pos hS] at ht
        by_cases ha : a = trs.recipientId
        · subst ha
          rw [updF_self] at ht
          rcases (by simpa using ht :
            t ∈ (s.byRecipient trs.recipientId).getD [] ∨ t = trs) with h | h
          · exact w4 _ t h
          · rw [h]
        · rw [updF_ne _ _ _ _ ha] at ht
          exact w4 a t ht
      · rw [if_neg hS] at ht
        exact w4 a t ht
  · intro t
    have hlk : lookupA (s.byId ++ [(trs.id, trs)]) t.id =
        if t.id = trs.id then some trs else lookupA s.byId t.id :=
      lookupA_pushed _ _ _ _ hLook
    constructor
    · -- part 1: byId ↔ bySender bucket
      show lookupA (s.byId ++ [(trs.id, trs)]) t.id = some t ↔
        t ∈ ((updF s.bySender trs.senderId
          ((s.bySender trs.senderId).getD [] ++ [trs])) t.senderId).getD []
      rw [hlk]
      by_cases hid : t.id = trs.id
      · rw [if_pos hid]
        by_cases hts : t = trs
        · subst hts
          rw [updF_self]
          simp
        · constructor
          · intro hc
            exact absurd (Option.some_injective _ hc).symm hts
          · intro hc
            exfalso
            by_cases hsa : t.senderId = trs.senderId
            · rw [hsa, updF_self] at hc
              rcases (by simpa using hc :
                t ∈ (s.bySender trs.senderId).getD [] ∨ t = trs) with h | h
              · have := ((hinv t).1.mpr (by rw [hsa]; exact h))
                rw [hid, hLook] at this
                exact Option.noConfusion this
              · exact hts h
            · rw [updF_ne _ _ _ _ hsa] at hc
              have := (hinv t).1.mpr hc
              rw [hid, hLook] at this
              exact Option.noConfusion this
      · rw [if_neg hid]
        by_cases hsa : t.senderId = trs.senderId
        · rw [hsa, updF_self]
          have hmm : t ∈ ((some ((s.bySender trs.senderId).getD [] ++ [trs])).getD []) ↔
              t ∈ (s.bySender trs.senderId).getD [] ∨ t = trs := by
            simp
          rw [hmm]
          constructor
          · intro hc
            exact Or.inl (by rw [← hsa]; exact (hinv t).1.mp hc)
          · rintro (hc | hc)
            · exact (hinv t).1.mpr (by rw [hsa]; exact hc)
            · exact absurd (by rw [hc]) hid
        · rw [updF_ne _ _ _ _ hsa]
          exact (hinv t).1
    · -- part 2: byRecipient bucket ↔ byId ∧ SEND
      show t ∈ ((if trs.type = TrsType.SEND then
          updF s.byRecipient trs.recipientId
            ((s.byRecipient trs.recipientId).getD [] ++ [trs])
          else s.byRecipient) t.recipientId).getD [] ↔
        (lookupA (s.byId ++ [(trs.id, trs)]) t.id = some t ∧ t.type = TrsType.SEND)
      rw [hlk]
      by_cases hS : trs.type = TrsType.SEND
      · rw [if_pos hS]
        by_cases hra : t.recipientId = trs.recipientId
        · rw [hra, updF_self]
          have hmm : t ∈ ((some ((s.byRecipient trs.recipientId).getD [] ++ [trs])).getD []) ↔
              t ∈ (s.byRecipient trs.recipientId).getD [] ∨ t = trs := by
            simp
          rw [hmm]
          by_cases hts : t = trs
          · subst hts
            rw [if_pos rfl]
            simp [hS]
          · by_cases hid : t.id = trs.id
            · rw [if_pos hid]
              constructor
              · rintro (hc | hc)
                · have := ((hinv t).2.mp (by rw [hra]; exact hc)).1
                  rw [hid, hLook] at this
                  exact Option.noConfusion this
                · exact absurd hc hts
              · rintro ⟨hc, -⟩
                exact absurd (Option.some_injective _ hc).symm hts
            · rw [if_neg hid]
              constructor
              · rintro (hc | hc)
                · exact (hinv t).2.mp (by rw [hra]; exact hc)
                · exact absurd hc hts
              · intro hc
                exact Or.inl (by rw [← hra]; exact (hinv t).2.mpr hc)
        · rw [updF_ne _ _ _ _ hra]
          by_cases hid : t.id = trs.id
          · rw [if_pos hid]
            constructor
            · intro hc
              have := ((hinv t).2.mp hc).1
              rw [hid, hLook] at this
              exact Option.noConfusion this
            · rintro ⟨hc, -⟩
              exact absurd (congrArg (fun u => u.recipientId)
                (Option.some_injective _ hc).symm) hra
          · rw [if_neg hid]
            exact (hinv t).2
      · rw [if_neg hS]
        by_cases hid : t.id = trs.id
        · rw [if_pos hid]
          constructor
          · intro hc
            have := ((hinv t).2.mp hc).1
            rw [hid, hLook] at this
            exact Option.noConfusion this
          · rintro ⟨hc, hsend⟩
            have : t = trs := (Option.some_injective _ hc).symm
            rw [this] at hsend
            exact absurd hsend hS
        · rw [if_neg hid]
          exact (hinv t).2

theorem remove_preserves (trs : Transaction) (s : PoolState)
    (hwf : poolWF s) (hinv : poolInv s)
    (hmatch : ∀ u, lookupA s.byId trs.id = some u → u = trs) :
    ∃ (b : Bool) (s' : PoolState), PoolState.remove trs s = Except.ok (b, s') ∧
      poolWF s' ∧ poolInv s' ∧
      (∀ x, lookupA s'.byId x = none ∨ lookupA s'.byId x = lookupA s.byId x) ∧
      lookupA s'.byId trs.id = none := by
  obtain ⟨w1, w2, w3, w4⟩ := hwf
  cases hL : lookupA s.byId trs.id with
  | none =>
    refine ⟨false, s, ?_, ⟨w1, w2, w3, w4⟩, hinv, fun x => Or.inr rfl, hL⟩
    rw [PoolState.remove, if_pos (by rw [hL]; rfl)]
  | some u =>
    have hu : u = trs := hmatch u hL
    subst hu
    have hmem : u ∈ (s.bySender u.senderId).getD [] := (hinv u).1.mp hL
    obtain ⟨B, hB⟩ : ∃ B, s.bySender u.senderId = some B := by
      cases hsb : s.bySender u.senderId with
      | none =>
        rw [hsb] at hmem
        simp at hmem
      | some B => exact ⟨B, rfl⟩
    have hR : PoolState.remove u s = Except.ok (true,
        { byId := eraseA s.byId u.id,
          bySender := updF s.bySender u.senderId
            (B.filter (fun t => t.id ≠ u.id)),
          byRecipient := updF s.byRecipient u.recipientId
            (((s.byRecipient u.recipientId).getD []).filter
              (fun t => t.id ≠ u.id)),
          locked := s.locked }) := by
      rw [PoolState.remove, if_neg (by rw [hL]; simp)]
      simp only [hB]
    refine ⟨true, _, hR, ?_, ?_, ?_, ?_⟩
    · refine ⟨?_, ?_, ?_, ?_⟩
      · show ∀ p ∈ eraseA s.byId u.id, p.1 = p.2.id
        exact fun p hp => w1 p (List.mem_of_mem_filter hp)
      · show ((eraseA s.byId u.id).map Prod.fst).Nodup
        exact keys_eraseA_nodup _ _ w2
      · show ∀ a, ∀ t ∈ ((updF s.bySender u.senderId
          (B.filter (fun t => t.id ≠ u.id))) a).getD [], a = t.senderId
        intro a t ht
        by_cases ha : a = u.senderId
        · subst ha
          rw [updF_self] at ht
          exact w3 u.senderId t
            (by rw [hB]; exact List.mem_of_mem_filter ht)
        · rw [updF_ne _ _ _ _ ha] at ht
          exact w3 a t ht
      · show ∀ a, ∀ t ∈ ((updF s.byRecipient u.recipientId
          (((s.byRecipient u.recipientId).getD []).filter
            (fun t => t.id ≠ u.id))) a).getD [], a = t.recipientId
        intro a t ht
        by_cases ha : a = u.recipientId
        · subst ha
          rw [updF_self] at ht
          exact w4 u.recipientId t (List.mem_of_mem_filter ht)
        · rw [updF_ne _ _ _ _ ha] at ht
          exact w4 a t ht
    · intro t
      constructor
      · show lookupA (eraseA s.byId u.id) t.id = some t ↔
          t ∈ ((updF s.bySender u.senderId
            (B.filter (fun x => x.id ≠ u.id))) t.senderId).getD []
        rw [lookupA_erased]
        by_cases hid : t.id = u.id
        · rw [if_pos hid]
          constructor
          · intro hc
            exact Option.noConfusion hc
          · intro hc
            exfalso
            by_cases hsa : t.senderId = u.senderId
            · rw [hsa, updF_self] at hc
              have hf : t ∈ B.filter (fun x => x.id ≠ u.id) := by simpa using hc
              have := List.of_mem_filter hf
              simp [hid] at this
            · rw [updF_ne _ _ _ _ hsa] at hc
              have h1 := (hinv t).1.mpr hc
              rw [hid, hL] at h1
              have h2 : t = u := (Option.some_injective _ h1).symm
              rw [h2] at hsa
              exact hsa rfl
        · rw [if_neg hid]
          by_cases hsa : t.senderId = u.senderId
          · rw [hsa, updF_self]
            have hmm : t ∈ (some (B.filter (fun x => x.id ≠ u.id))).getD [] ↔
                t ∈ B := by
              simp only [Option.getD_some]
              constructor
              · exact fun hc => List.mem_of_mem_filter hc
              · intro hc
                exact List.mem_filter.mpr ⟨hc, by simpa using hid⟩
            rw [hmm]
            have hiv := (hinv t).1
            rw [hsa, hB] at hiv
            simpa using hiv
          · rw [updF_ne _ _ _ _ hsa]
            exact (hinv t).1
      · show t ∈ ((updF s.byRecipient u.recipientId
            (((s.byRecipient u.recipientId).getD []).filter
              (fun x => x.id ≠ u.id))) t.recipientId).getD [] ↔
          (lookupA (eraseA s.byId u.id) t.id = some t ∧ t.type = TrsType.SEND)
        rw [lookupA_erased]
        by_cases hid : t.id = u.id
        · rw [if_pos hid]
          constructor
          · intro hc
            exfalso
            by_cases hra : t.recipientId = u.recipientId
            · rw [hra, updF_self] at hc
              have hf : t ∈ ((s.byRecipient u.recipientId).getD []).filter
                  (fun x => x.id ≠ u.id) := by simpa using hc
              have := List.of_mem_filter hf
              simp [hid] at this
            · rw [updF_ne _ _ _ _ hra] at hc
              have h1 := ((hinv t).2.mp hc).1
              rw [hid, hL] at h1
              have h2 : t = u := (Option.some_injective _ h1).symm
              rw [h2] at hra
              exact hra rfl
          · rintro ⟨hc, -⟩
            exact Option.noConfusion hc
        · rw [if_neg hid]
          by_cases hra : t.recipientId = u.recipientId
          · rw [hra, updF_self]
            have hmm : t ∈ (some (((s.byRecipient u.recipientId).getD []).filter
                (fun x => x.id ≠ u.id))).getD [] ↔
                t ∈ (s.byRecipient u.recipientId).getD [] := by
              simp only [Option.getD_some]
              constructor
              · exact fun hc => List.mem_of_mem_filter hc
              · intro hc
                exact List.mem_filter.mpr ⟨hc, by simpa using hid⟩
            rw [hmm]
            have hiv := (hinv t).2
            rw [hra] at hiv
            exact hiv
          · rw [updF_ne _ _ _ _ hra]
            exact (hinv t).2
    · intro x
      show lookupA (eraseA s.byId u.id) x = none ∨
        lookupA (eraseA s.byId u.id) x = lookupA s.byId x
      rw [lookupA_erased]
      by_cases hx : x = u.id
      · rw [if_pos hx]
        exact Or.inl rfl
      · rw [if_neg hx]
        exact Or.inr rfl
    · show lookupA (eraseA s.byId u.id) u.id = none
      exact lookupA_eraseA_self _ _

theorem removeEach_preserves :
    ∀ (l : List Transaction) (s : PoolState),
    poolWF s → poolInv s →
    (∀ t ∈ l, ∀ u, lookupA s.byId t.id = some u → u = t) →
    ∃ (rem : List Transaction) (s' : PoolState),
      PoolState.removeEach l s = Except.ok (rem, s') ∧
      poolWF s' ∧ poolInv s' ∧
      (∀ x, lookupA s'.byId x = none ∨ lookupA s'.byId x = lookupA s.byId x) ∧
      (∀ t ∈ l, lookupA s'.byId t.id = none) := by
  intro l
  induction l with
  | nil =>
    intro s hwf hinv _
    exact ⟨[], s, rfl, hwf, hinv, fun x => Or.inr rfl,
      fun t ht => absurd ht (List.not_mem_nil t)⟩
  | cons t ts ih =>
    intro s hwf hinv hmatch
    obtain ⟨b, s1, hR, hwf1, hinv1, hmono1, hnone1⟩ :=
      remove_preserves t s hwf hinv (hmatch t (List.mem_cons_self t ts))
    have hmatch1 : ∀ x ∈ ts, ∀ u, lookupA s1.byId x.id = some u → u = x := by
      intro x hx u hu
      rcases hmono1 x.id with hm | hm
      · rw [hm] at hu
        exact Option.noConfusion hu
      · rw [hm] at hu
        exact hmatch x (List.mem_cons_of_mem t hx) u hu
    obtain ⟨rem2, s2, hR2, hwf2, hinv2, hmono2, hnone2⟩ := ih s1 hwf1 hinv1 hmatch1
    refine ⟨if b then t :: rem2 else rem2, s2, ?_, hwf2, hinv2, ?_, ?_⟩
    · rw [PoolState.removeEach]
      simp only [hR, hR2]
    · intro x
      rcases hmono2 x with hm | hm
      · exact Or.inl hm
      · rcases hmono1 x with hm1 | hm1
        · rw [hm] at *
          exact Or.inl hm1
        · rw [hm, hm1]
          exact Or.inr rfl
    · intro x hx
      rcases List.mem_cons.mp hx with h | h
      · rcases hmono2 x.id with hm | hm
        · exact hm
        · rw [hm, h]
          exact hnone1
      · exact hnone2 x h

theorem removeAllSpec_state :
    ∀ (l : List Transaction) (s : PoolState) (rem : List Transaction) (s' : PoolState),
    PoolState.removeEach l s = Except.ok (rem, s') →
    removeAllSpec l s = Except.ok s' := by
  intro l
  induction l with
  | nil =>
    intro s rem s' h
    rw [PoolState.removeEach] at h
    rcases h with ⟨rfl, rfl⟩
    rfl
  | cons t ts ih =>
    intro s rem s' h
    rw [PoolState.removeEach] at h
    rw [removeAllSpec]
    cases hR : PoolState.remove t s with
    | error s1 =>
      simp only [hR] at h
      exact Except.noConfusion h
    | ok p =>
      rcases p with ⟨b, s1⟩
      simp only [hR] at h
      cases hR2 : PoolState.removeEach ts s1 with
      | error s2 =>
        simp only [hR2] at h
        exact Except.noConfusion h
      | ok q =>
        rcases q with ⟨rem2, s2⟩
        simp only [hR2] at h
        injection h with h1
        have hs : s2 = s' := congrArg Prod.snd h1
        simp only [hR]
        rw [← hs]
        exact ih s1 rem2 s2 hR2

theorem poolWF_empty : poolWF PoolState.empty := by
  refine ⟨?_, ?_, ?_, ?_⟩ <;> simp [PoolState.empty]

theorem poolInv_empty : poolInv PoolState.empty := by
  intro t
  constructor <;> simp [PoolState.empty, lookupA]

/-- C2 counterexample: the empty pool satisfies INV-1, but a `push` whose
`newApplyUnconfirmed` throws leaves a state violating it — the
transaction sits in `bySender[senderId]` while absent from `byId`. -/
theorem push_applyFail_breaks_inv :
    poolInv PoolState.empty ∧
    ¬poolInv (PoolState.push false (fun _ => "A") (fun _ _ => 0) trsC1 false false
      PoolState.empty).2.2 := by
  refine ⟨poolInv_empty, ?_⟩
  intro h
  have hmem : trsC1 ∈ ((PoolState.push false (fun _ => "A") (fun _ _ => 0) trsC1
      false false PoolState.empty).2.2.bySender trsC1.senderId).getD [] := by
    decide
  have h1 := (h trsC1).1.mpr hmem
  have h2 : lookupA (PoolState.push false (fun _ => "A") (fun _ _ => 0) trsC1
      false false PoolState.empty).2.2.byId trsC1.id = none := by
    decide
  rw [h2] at h1
  exact Option.noConfusion h1

/-- C2 (amended): INV-1 (together with the representation invariant
`poolWF`) is preserved by `push` when `newApplyUnconfirmed` succeeds, by
`remove` and `pop` when the argument agrees with the stored transaction
of its id (as at every internal call site), and by
`popSortedUnconfirmedTransactions`, `removeTransactionBySenderId` and
`removeTransactionByRecipientId` (which also never hit the
missing-bucket TypeError from such states); `push` with a failing
`newApplyUnconfirmed` violates it (see the counterexample). -/
theorem pool_inv_preservation_claim (addrOf : String → String) (cmp : Comparator) :
    (∀ (trs : Transaction) (broadcast force : Bool) (s : PoolState),
      poolWF s → poolInv s →
      poolWF (PoolState.push true addrOf cmp trs broadcast force s).2.2 ∧
      poolInv (PoolState.push true addrOf cmp trs broadcast force s).2.2) ∧
    (∀ (trs : Transaction) (s : PoolState), poolWF s → poolInv s →
      (∀ u, lookupA s.byId trs.id = some u → u = trs) →
      ∃ b s', PoolState.remove trs s = Except.ok (b, s') ∧
        poolWF s' ∧ poolInv s') ∧
    (∀ (trs : Transaction) (s : PoolState), poolWF s → poolInv s →
      (∀ u, lookupA s.byId trs.id = some u → u = trs) →
      poolWF (PoolState.pop trs s).2 ∧ poolInv (PoolState.pop trs s).2) ∧
    (∀ (limit : Nat) (s : PoolState), poolWF s → poolInv s →
      ∃ l s', PoolState.popSortedUnconfirmedTransactions cmp limit s =
          Except.ok (l, s') ∧ poolWF s' ∧ poolInv s') ∧
    (∀ (a : String) (s : PoolState), poolWF s → poolInv s →
      ∃ l s', PoolState.removeTransactionBySenderId a s = Except.ok (l, s') ∧
        poolWF s' ∧ poolInv s') ∧
    (∀ (a : String) (s : PoolState), poolWF s → poolInv s →
      ∃ l s', PoolState.removeTransactionByRecipientId a s = Except.ok (l, s') ∧
        poolWF s' ∧ poolInv s') := by
  have hPopGen : ∀ (limit : Nat) (s : PoolState), poolWF s → poolInv s →
      ∃ l s', PoolState.popSortedUnconfirmedTransactions cmp limit s =
        Except.ok (l, s') ∧ poolWF s' ∧ poolInv s' := by
    intro limit s hwf hinv
    have hmatch : ∀ t ∈ (sortJs cmp (valuesA s.byId)).take limit,
        ∀ u, lookupA s.byId t.id = some u → u = t := by
      intro t ht u hu
      have hmem : t ∈ valuesA s.byId :=
        (sortJs_mem cmp t _).mp (List.take_subset _ _ ht)
      have hl := lookupA_of_mem_values _ hwf.1 hwf.2.1 t hmem
      rw [hl] at hu
      exact (Option.some_injective _ hu).symm
    obtain ⟨rem, s', hRE, hwf', hinv', -, -⟩ :=
      removeEach_preserves _ s hwf hinv hmatch
    refine ⟨(sortJs cmp (valuesA s.byId)).take limit, s', ?_, hwf', hinv'⟩
    rw [PoolState.popSortedUnconfirmedTransactions]
    simp only [hRE]
  refine ⟨?_, ?_, ?_, hPopGen, ?_, ?_⟩
  · intro trs broadcast force s hwf hinv
    exact push_ok_preserves addrOf cmp trs broadcast force s hwf hinv
  · intro trs s hwf hinv hmatch
    obtain ⟨b, s', hR, hwf', hinv', -, -⟩ :=
      remove_preserves trs s hwf hinv hmatch
    exact ⟨b, s', hR, hwf', hinv'⟩
  · intro trs s hwf hinv hmatch
    obtain ⟨b, s', hR, hwf', hinv', -, -⟩ :=
      remove_preserves trs s hwf hinv hmatch
    have hpop : (PoolState.pop trs s).2 = s' := by
      rw [PoolState.pop]
      simp only [hR]
    rw [hpop]
    exact ⟨hwf', hinv'⟩
  · intro a s hwf hinv
    have hmatch : ∀ t ∈ s.getTransactionsBySenderId a,
        ∀ u, lookupA s.byId t.id = some u → u = t := by
      intro t ht u hu
      have ha : a = t.senderId := hwf.2.2.1 a t ht
      have hmem : t ∈ (s.bySender t.senderId).getD [] := by
        rw [← ha]
        exact ht
      have hl := (hinv t).1.mpr hmem
      rw [hl] at hu
      exact (Option.some_injective _ hu).symm
    obtain ⟨rem, s', hRE, hwf', hinv', -, -⟩ :=
      removeEach_preserves _ s hwf hinv hmatch
    exact ⟨rem, s', hRE, hwf', hinv'⟩
  · intro a s hwf hinv
    have hmatch : ∀ t ∈ s.getTransactionsByRecipientId a,
        ∀ u, lookupA s.byId t.id = some u → u = t := by
      intro t ht u hu
      have ha : a = t.recipientId := hwf.2.2.2 a t ht
      have hmem : t ∈ (s.byRecipient t.recipientId).getD [] := by
        rw [← ha]
        exact ht
      have hl := ((hinv t).2.mp hmem).1
      rw [hl] at hu
      exact (Option.some_injective _ hu).symm
    obtain ⟨rem, s', hRE, hwf', hinv', -, -⟩ :=
      removeEach_preserves _ s hwf hinv hmatch
    exact ⟨rem, s', hRE, hwf', hinv'⟩

/-- C2 witness: the preserved invariant after a successful push into the
empty pool. -/
theorem pool_inv_preservation_claim_witness :
    poolWF (PoolState.push true (fun _ => "A") (fun _ _ => 0) trsC1 false false
      PoolState.empty).2.2 ∧
    poolInv (PoolState.push true (fun _ => "A") (fun _ _ => 0) trsC1 false false
      PoolState.empty).2.2 :=
  (pool_inv_preservation_claim (fun _ => "A") (fun _ _ => 0)).1 trsC1 false false
    PoolState.empty poolWF_empty poolInv_empty

/-- C5: on a consistent pool state,
`popSortedUnconfirmedTransactions(limit)` returns exactly the first
`limit` elements of the values of `byId` sorted by `transactionSortFunc`, the
resulting state is the state obtained by calling `remove` on each of
them in that order, and each returned transaction is afterwards absent
from `byId`, `bySender[t.senderId]` and `byRecipient[t.recipientId]`. -/
theorem popSorted_claim (cmp : Comparator) (limit : Nat) (s : PoolState)
    (hwf : poolWF s) (hinv : poolInv s) :
    ∃ s', PoolState.popSortedUnconfirmedTransactions cmp limit s =
        Except.ok ((sortJs cmp (valuesA s.byId)).take limit, s') ∧
      removeAllSpec ((sortJs cmp (valuesA s.byId)).take limit) s = Except.ok s' ∧
      ∀ t ∈ (sortJs cmp (valuesA s.byId)).take limit,
        lookupA s'.byId t.id = none ∧
        ¬t ∈ (s'.bySender t.senderId).getD [] ∧
        ¬t ∈ (s'.byRecipient t.recipientId).getD [] := by
  have hmatch : ∀ t ∈ (sortJs cmp (valuesA s.byId)).take limit,
      ∀ u, lookupA s.byId t.id = some u → u = t := by
    intro t ht u hu
    have hmem : t ∈ valuesA s.byId :=
      (sortJs_mem cmp t _).mp (List.take_subset _ _ ht)
    have hl := lookupA_of_mem_values _ hwf.1 hwf.2.1 t hmem
    rw [hl] at hu
    exact (Option.some_injective _ hu).symm
  obtain ⟨rem, s', hRE, hwf', hinv', hmono, hnone⟩ :=
    removeEach_preserves _ s hwf hinv hmatch
  refine ⟨s', ?_, removeAllSpec_state _ _ _ _ hRE, ?_⟩
  · rw [PoolState.popSortedUnconfirmedTransactions]
    simp only [hRE]
  · intro t ht
    have hn := hnone t ht
    refine ⟨hn, ?_, ?_⟩
    · intro hc
      have := (hinv' t).1.mpr hc
      rw [hn] at this
      exact Option.noConfusion this
    · intro hc
      have := ((hinv' t).2.mp hc).1
      rw [hn] at this
      exact Option.noConfusion this

/-- C5 witness: popping from the one-element pool built by a successful
push succeeds. -/
theorem popSorted_claim_witness :
    (PoolState.popSortedUnconfirmedTransactions (fun _ _ => 0) 1
      (PoolState.push true (fun _ => "A") (fun _ _ => 0) trsC1 false false
        PoolState.empty).2.2).isOk = true := by
  obtain ⟨hwf1, hinv1⟩ := push_ok_preserves (fun _ => "A") (fun _ _ => 0) trsC1
    false false PoolState.empty poolWF_empty poolInv_empty
  obtain ⟨s', h1, -, -⟩ := popSorted_claim (fun _ _ => 0) 1 _ hwf1 hinv1
  rw [h1]
  rfl
